import Mathlib

/-!
Shallow embedding of `detect_secrets/plugins/keyword.py` (keyword detector:
regex grammar, filetype rule table, allowlist veto, analyze_string and
analyze_line orchestration) together with a small backtracking regular
expression engine modelling the subset of Python `re` used by that module:
character classes, greedy character-class stars, lazy bounded repetition,
ordered alternation, capture groups, back-references, lookahead, word
boundary, and the IGNORECASE flag (ASCII case folding, which covers every
construct these patterns use on the inputs of interest).

Strings are lists of characters; positions are natural numbers.
-/

namespace DetectSecrets

/-- ASCII uppercase test, mirroring the `A`-`Z` range used by `re.IGNORECASE`
case folding on the ASCII patterns of this module. -/
def isUp (c : Char) : Bool := 'A' ≤ c && c ≤ 'Z'

/-- ASCII lowercase test. -/
def isLow (c : Char) : Bool := 'a' ≤ c && c ≤ 'z'

/-- ASCII lowering, the case folding relevant to the patterns in scope. -/
def lowerChar (c : Char) : Char :=
  if isUp c then Char.ofNat (c.toNat + 32) else c

/-- ASCII raising. -/
def upperChar (c : Char) : Char :=
  if isLow c then Char.ofNat (c.toNat - 32) else c

/-- Vertical tab, the character written `\v` in the Python patterns. -/
def vtab : Char := Char.ofNat 11

/-- Python `\s` on ASCII input: space, tab, newline, carriage return,
form feed and vertical tab. -/
def spaceChars : List Char := [' ', '\t', '\n', '\r', Char.ofNat 12, Char.ofNat 11]

/-- First-order character classes, so that regular expressions have
decidable equality and syntactic predicates over them can be decided. -/
inductive CharClass where
  /-- a single literal character -/
  | eqc (c : Char)
  /-- a set of characters, `[...]` -/
  | inSet (cs : List Char)
  /-- a complemented set, `[^...]` -/
  | notInSet (cs : List Char)
  /-- `\w`: letters, digits, underscore -/
  | word
  /-- `[0-9]` -/
  | digit
  /-- `.`: anything but a newline -/
  | notNL
  /-- `[a-zA-Z0-9_!@#%^&]`, the class the secret body must start with -/
  | alnumStart
  deriving DecidableEq

/-- Meaning of a character class. -/
def evalClass : CharClass → Char → Bool
  | .eqc d, c => c = d
  | .inSet cs, c => cs.contains c
  | .notInSet cs, c => !(cs.contains c)
  | .word, c => c.isAlphanum || c = '_'
  | .digit, c => c.isDigit
  | .notNL, c => c ≠ '\n'
  | .alnumStart, c => c.isAlphanum || ['_', '!', '@', '#', '%', '^', '&'].contains c

/-- Class membership under an optional IGNORECASE flag: the character, or a
case-folded form of it, belongs to the class. -/
def charMatches (ic : Bool) (p : CharClass) (c : Char) : Bool :=
  evalClass p c || (ic && (evalClass p (lowerChar c) || evalClass p (upperChar c)))

/-- Character comparison for back-references, case-insensitive when the
pattern carries IGNORECASE. -/
def charEqCI (ic : Bool) (c d : Char) : Bool :=
  c = d || (ic && lowerChar c = lowerChar d)

/-- Regular expression syntax: the subset of Python `re` that
`keyword.py` uses. -/
inductive RE where
  | eps
  | cls (p : CharClass)
  | seq (a b : RE)
  | alt (a b : RE)
  /-- greedy `X*` where `X` is a single character class -/
  | starCls (p : CharClass)
  /-- lazy `X{0,m}?` where `X` is a single character class -/
  | lazyRep (p : CharClass) (m : Nat)
  | group (n : Nat) (r : RE)
  | backref (n : Nat)
  | lookahead (r : RE)
  | wordB
  deriving DecidableEq

/-- Capture store: group number, start position, end position; later
captures shadow earlier ones. -/
def Groups := List (Nat × Nat × Nat)

instance : DecidableEq Groups := by unfold Groups; infer_instance

/-- Span recorded for a group, if any. -/
def lookupG : Groups → Nat → Option (Nat × Nat)
  | [], _ => none
  | (m, a, b) :: t, n => if m = n then some (a, b) else lookupG t n

/-- Word character test for `\b`. -/
def isWordChar (c : Char) : Bool := c.isAlphanum || c = '_'

/-- Whether the character at a position is a word character (out of range
counts as a non-word position). -/
def isWordAt (s : List Char) (i : Nat) : Bool :=
  match s.get? i with
  | some c => isWordChar c
  | none => false

/-- Python `\b` at position `i`. -/
def wordBoundary (s : List Char) (i : Nat) : Bool :=
  (decide (0 < i) && isWordAt s (i - 1)) != isWordAt s i

/-- Length of the maximal run of characters satisfying `t`. -/
def runLen (t : Char → Bool) : List Char → Nat
  | [] => 0
  | c :: rest => if t c then runLen t rest + 1 else 0

/-- Greedy backtracking for a character-class star: try the continuation
after consuming `n` characters, then `n - 1`, down to zero. -/
def tryDown (k : Nat → Groups → Option (Nat × Groups)) (i : Nat) (gs : Groups) :
    Nat → Option (Nat × Groups)
  | 0 => k i gs
  | n + 1 =>
    match k (i + (n + 1)) gs with
    | some r => some r
    | none => tryDown k i gs n

/-- Lazy bounded repetition: try the continuation after zero characters
first, extending one matching character at a time up to the budget. -/
def lazyLoop (s : List Char) (ic : Bool) (p : CharClass)
    (k : Nat → Groups → Option (Nat × Groups)) (i : Nat) (gs : Groups) :
    Nat → Nat → Option (Nat × Groups)
  | j, 0 => k (i + j) gs
  | j, b + 1 =>
    match k (i + j) gs with
    | some r => some r
    | none =>
      match s.get? (i + j) with
      | some c => if charMatches ic p c then lazyLoop s ic p k i gs (j + 1) b else none
      | none => none

/-- Text at `i` repeats, up to case when IGNORECASE, the `len` characters
starting at `a` (back-reference check). -/
def refMatch (s : List Char) (ic : Bool) : Nat → Nat → Nat → Bool
  | _, _, 0 => true
  | i, a, len + 1 =>
    match s.get? i, s.get? a with
    | some c, some d => charEqCI ic c d && refMatch s ic (i + 1) (a + 1) len
    | _, _ => false

/-- Backtracking matcher in continuation-passing style. `mat s ic r i gs k`
tries every way `r` can consume text of `s` starting at `i` with capture
store `gs`, calling the continuation on each candidate end position, in
the same order as the Python `re` backtracking engine. -/
def mat (s : List Char) (ic : Bool) :
    RE → Nat → Groups → (Nat → Groups → Option (Nat × Groups)) → Option (Nat × Groups)
  | .eps, i, gs, k => k i gs
  | .cls p, i, gs, k =>
    match s.get? i with
    | some c => if charMatches ic p c then k (i + 1) gs else none
    | none => none
  | .seq a b, i, gs, k => mat s ic a i gs (fun j g2 => mat s ic b j g2 k)
  | .alt a b, i, gs, k =>
    match mat s ic a i gs k with
    | some r => some r
    | none => mat s ic b i gs k
  | .starCls p, i, gs, k => tryDown k i gs (runLen (charMatches ic p) (s.drop i))
  | .lazyRep p m, i, gs, k => lazyLoop s ic p k i gs 0 m
  | .group n r, i, gs, k => mat s ic r i gs (fun j g2 => k j ((n, i, j) :: g2))
  | .backref n, i, gs, k =>
    match lookupG gs n with
    | some (a, b) => if refMatch s ic i a (b - a) then k (i + (b - a)) gs else none
    | none => none
  | .lookahead r, i, gs, k =>
    match mat s ic r i gs (fun j g2 => some (j, g2)) with
    | some (_, g2) => k i g2
    | none => none
  | .wordB, i, gs, k => if wordBoundary s i then k i gs else none

/-- `re.Pattern`: a compiled expression together with its IGNORECASE flag. -/
structure CompiledRegex where
  re : RE
  ic : Bool

/-- Leftmost search, models `pattern.search(string)`: try each start
position from the left; result is (start, end, captures). -/
def searchFrom (re : RE) (ic : Bool) (s : List Char) : Nat → Nat → Option (Nat × Nat × Groups)
  | 0, i =>
    match mat s ic re i [] (fun j g => some (j, g)) with
    | some (j, g) => some (i, j, g)
    | none => none
  | f + 1, i =>
    match mat s ic re i [] (fun j g => some (j, g)) with
    | some (j, g) => some (i, j, g)
    | none => searchFrom re ic s f (i + 1)

/-- `pattern.search(string)` over a compiled pattern. -/
def searchCR (cr : CompiledRegex) (s : List Char) : Option (Nat × Nat × Groups) :=
  searchFrom cr.re cr.ic s s.length 0

/-- Characters of `s` between positions `a` and `b`. -/
def extractL (s : List Char) (a b : Nat) : List Char := (s.drop a).take (b - a)

/-- `match.group(n)`: text of capture group `n`, if the group
participated in the match. -/
def groupStr (s : List Char) (gs : Groups) (n : Nat) : Option String :=
  (lookupG gs n).map (fun ab => String.mk (extractL s ab.1 ab.2))

/-! ### Pattern fragments (`keyword.py` lines 44-119) -/

/-- A literal character sequence. -/
def lit (l : List Char) : RE := l.foldr (fun c r => .seq (.cls (.eqc c)) r) .eps

/-- A literal string. -/
def litS (t : String) : RE := lit t.data

/-- Greedy `r?`. -/
def opt (r : RE) : RE := .alt r .eps

/-- Greedy `c?` for a single character. -/
def optC (c : Char) : RE := opt (.cls (.eqc c))

/-- Greedy `p{0,2}`. -/
def rep02 (p : CharClass) : RE := .alt (.seq (.cls p) (.cls p)) (.alt (.cls p) .eps)

/-- Greedy `p{1,2}`. -/
def rep12 (p : CharClass) : RE := .alt (.seq (.cls p) (.cls p)) (.cls p)

/-- Greedy `p{2,3}`. -/
def rep23 (p : CharClass) : RE :=
  .alt (.seq (.cls p) (.seq (.cls p) (.cls p))) (.seq (.cls p) (.cls p))

/-- Ordered alternation of a list of alternatives. -/
def altList : List RE → RE
  | [] => .eps
  | [r] => r
  | r :: rest => .alt r (altList rest)

/-- Ordered concatenation of a list of fragments. -/
def seqList : List RE → RE
  | [] => .eps
  | [r] => r
  | r :: rest => .seq r (seqList rest)

/-- `OPTIONAL_WHITESPACE`: `\s*`. -/
def WS : RE := .starCls (.inSet spaceChars)

/-- `QUOTE`: the class `[\x27"\x60]` (single quote, double quote, backtick). -/
def QUOTE_CLASS : CharClass := .inSet ['\'', '"', '`']

/-- `CLOSING`: `[]\x27"]{0,2}` (right bracket, single quote, double quote,
zero to two occurrences). -/
def CLOSING_RE : RE := rep02 (.inSet [']', '\'', '"'])

/-- Secret-body character: anything but vertical tab and quotes,
`[^\v\x27"]`. -/
def bodyC : CharClass := .notInSet [vtab, '\'', '"']

/-- Final secret character: anything but vertical tab, comma, quotes and
backtick, `[^\v,\x27"\x60]`. -/
def lastC : CharClass := .notInSet [vtab, ',', '\'', '"', '`']

/-- `SECRET` fragment:
`(?=[^\v\x27"]*)(?=[a-zA-Z0-9_!@#%^&])[^\v\x27"]*[^\v,\x27"\x60]`. -/
def SECRET : RE :=
  .seq (.lookahead (.starCls bodyC))
    (.seq (.lookahead (.cls .alnumStart))
      (.seq (.starCls bodyC) (.cls lastC)))

/-- A denylist root of the shape `a_?b`. -/
def kwUnd (a b : String) : RE := .seq (litS a) (.seq (optC '_') (litS b))

/-- The 22 `DENYLIST` keyword roots, in source order. -/
def DENYLIST : List RE :=
  [ .seq (litS "api") (.seq (opt (.cls (.inSet ['_', '.', '-']))) (litS "key")),
    kwUnd "auth" "key",
    kwUnd "service" "key",
    kwUnd "account" "key",
    kwUnd "db" "key",
    kwUnd "database" "key",
    kwUnd "priv" "key",
    kwUnd "private" "key",
    kwUnd "client" "key",
    kwUnd "db" "pass",
    kwUnd "database" "pass",
    kwUnd "key" "pass",
    litS "password",
    litS "passwd",
    litS "token",
    .seq (litS "_pass") .wordB,
    litS "pwd",
    litS "secret",
    litS "contraseña",
    litS "contrasena",
    .seq (litS "recaptcha_") (.seq (.starCls .notNL) (litS "key")),
    kwUnd "nessus" "key" ]

/-- `DENYLIST_REGEX`: `({denylist})\w*`, with the alternation captured as
group `n` (group numbers are positional in each family). -/
def DENYLIST_REGEX (n : Nat) : RE := .seq (.group n (altList DENYLIST)) (.starCls .word)

/-- `DENYLIST_REGEX_WITH_PREFIX`: `\w*({denylist})\w*`. -/
def DENYLIST_REGEX_PREFIXED (n : Nat) : RE := .seq (.starCls .word) (DENYLIST_REGEX n)

/-- `(={1,3}|!==?)`, in Python backtracking order. -/
def OPSIGNS : RE :=
  altList [litS "===", litS "==", litS "=",
    seqList [.cls (.eqc '!'), .cls (.eqc '='), optC '=']]

/-! ### Pattern families (`keyword.py` lines 121-249) -/

/-- `{denylist}({closing})?{ws}:=?{ws}({quote}?)({secret})(\3)`, IGNORECASE. -/
def FOLLOWED_BY_COLON_EQUAL_SIGNS_REGEX : CompiledRegex :=
  ⟨seqList [DENYLIST_REGEX 1, opt (.group 2 CLOSING_RE), WS, .cls (.eqc ':'), optC '=', WS,
    .group 3 (opt (.cls QUOTE_CLASS)), .group 4 SECRET, .group 5 (.backref 3)], true⟩

/-- `{denylist}({closing})?:{ws}({quote}?)({secret})(\3)`, IGNORECASE. -/
def FOLLOWED_BY_COLON_REGEX : CompiledRegex :=
  ⟨seqList [DENYLIST_REGEX 1, opt (.group 2 CLOSING_RE), .cls (.eqc ':'), WS,
    .group 3 (opt (.cls QUOTE_CLASS)), .group 4 SECRET, .group 5 (.backref 3)], true⟩

/-- `{denylist}({closing})?:({ws})({quote})({secret})(\4)`, IGNORECASE. -/
def FOLLOWED_BY_COLON_QUOTES_REQUIRED_REGEX : CompiledRegex :=
  ⟨seqList [DENYLIST_REGEX 1, opt (.group 2 CLOSING_RE), .cls (.eqc ':'), .group 3 WS,
    .group 4 (.cls QUOTE_CLASS), .group 5 SECRET, .group 6 (.backref 4)], true⟩

/-- `{denylist}({sq})?{ws}[!=]{1,2}{ws}(@)?(")({secret})(\5)` with
`sq = (\[[0-9]*\])`, IGNORECASE. -/
def FOLLOWED_BY_EQUAL_SIGNS_OPTIONAL_BRACKETS_OPTIONAL_AT_SIGN_QUOTES_REQUIRED_REGEX :
    CompiledRegex :=
  ⟨seqList [DENYLIST_REGEX 1,
    opt (.group 2 (.group 3 (seqList [.cls (.eqc '['), .starCls .digit, .cls (.eqc ']')]))),
    WS, rep12 (.inSet ['!', '=']), WS, opt (.group 4 (.cls (.eqc '@'))),
    .group 5 (.cls (.eqc '"')), .group 6 SECRET, .group 7 (.backref 5)], true⟩

/-- `{denylist}(.assign)?\((")({secret})(\3)` — compiled WITHOUT flags, so
this family is case-sensitive. -/
def FOLLOWED_BY_OPTIONAL_ASSIGN_QUOTES_REQUIRED_REGEX : CompiledRegex :=
  ⟨seqList [DENYLIST_REGEX 1, opt (.group 2 (.seq (.cls .notNL) (litS "assign"))),
    .cls (.eqc '('), .group 3 (.cls (.eqc '"')), .group 4 SECRET, .group 5 (.backref 3)], false⟩

/-- `{denylist}({closing})?{ws}(={1,3}|!==?){ws}({quote}?)({secret})(\4)`,
IGNORECASE. -/
def FOLLOWED_BY_EQUAL_SIGNS_REGEX : CompiledRegex :=
  ⟨seqList [DENYLIST_REGEX 1, opt (.group 2 CLOSING_RE), WS, .group 3 OPSIGNS, WS,
    .group 4 (opt (.cls QUOTE_CLASS)), .group 5 SECRET, .group 6 (.backref 4)], true⟩

/-- `{denylist}({closing})?{ws}(={1,3}|!==?){ws}({quote})({secret})(\4)`,
IGNORECASE. -/
def FOLLOWED_BY_EQUAL_SIGNS_QUOTES_REQUIRED_REGEX : CompiledRegex :=
  ⟨seqList [DENYLIST_REGEX 1, opt (.group 2 CLOSING_RE), WS, .group 3 OPSIGNS, WS,
    .group 4 (.cls QUOTE_CLASS), .group 5 SECRET, .group 6 (.backref 4)], true⟩

/-- `({quote})({secret})(\1){ws}[!=]{2,3}{ws}{denylist_with_prefix}` —
compiled WITHOUT flags, so this family is case-sensitive. -/
def PRECEDED_BY_EQUAL_COMPARISON_SIGNS_QUOTES_REQUIRED_REGEX : CompiledRegex :=
  ⟨seqList [.group 1 (.cls QUOTE_CLASS), .group 2 SECRET, .group 3 (.backref 1), WS,
    rep23 (.inSet ['!', '=']), WS, DENYLIST_REGEX_PREFIXED 4], false⟩

/-- `{denylist}[^\s]{0,50}?{ws}({quote})({secret})(\2);`, IGNORECASE. -/
def FOLLOWED_BY_QUOTES_AND_SEMICOLON_REGEX : CompiledRegex :=
  ⟨seqList [DENYLIST_REGEX 1, .lazyRep (.notInSet spaceChars) 50, WS,
    .group 2 (.cls QUOTE_CLASS), .group 3 SECRET, .group 4 (.backref 2), .cls (.eqc ';')], true⟩

/-- `{denylist}({closing})?{ws}=>?{ws}({quote})({secret})(\3)`, IGNORECASE. -/
def FOLLOWED_BY_ARROW_FUNCTION_SIGN_QUOTES_REQUIRED_REGEX : CompiledRegex :=
  ⟨seqList [DENYLIST_REGEX 1, opt (.group 2 CLOSING_RE), WS, .cls (.eqc '='), optC '>', WS,
    .group 3 (.cls QUOTE_CLASS), .group 4 SECRET, .group 5 (.backref 3)], true⟩

/-- `data\.put\({ws}{quote}{denylist_with_prefix}{quote}{ws},{ws}{quote}({secret}){quote}{ws}\)`,
IGNORECASE. -/
def DATA_PUT_PASSWORD_REGEX : CompiledRegex :=
  ⟨seqList [litS "data.put(", WS, .cls QUOTE_CLASS, DENYLIST_REGEX_PREFIXED 1,
    .cls QUOTE_CLASS, WS, .cls (.eqc ','), WS, .cls QUOTE_CLASS, .group 2 SECRET,
    .cls QUOTE_CLASS, WS, .cls (.eqc ')')], true⟩

/-! ### Rule sets (`keyword.py` lines 250-301) -/

/-- An ordered map from pattern family to designated capture group. -/
abbrev RuleSet := List (CompiledRegex × Nat)

/-- `CONFIG_DENYLIST_REGEX_TO_GROUP`. -/
def CONFIG_DENYLIST_REGEX_TO_GROUP : RuleSet :=
  [(FOLLOWED_BY_COLON_REGEX, 4),
   (PRECEDED_BY_EQUAL_COMPARISON_SIGNS_QUOTES_REQUIRED_REGEX, 2),
   (FOLLOWED_BY_EQUAL_SIGNS_REGEX, 5),
   (FOLLOWED_BY_QUOTES_AND_SEMICOLON_REGEX, 3)]

/-- `GOLANG_DENYLIST_REGEX_TO_GROUP`. -/
def GOLANG_DENYLIST_REGEX_TO_GROUP : RuleSet :=
  [(FOLLOWED_BY_COLON_EQUAL_SIGNS_REGEX, 4),
   (PRECEDED_BY_EQUAL_COMPARISON_SIGNS_QUOTES_REQUIRED_REGEX, 2),
   (FOLLOWED_BY_EQUAL_SIGNS_REGEX, 5),
   (FOLLOWED_BY_QUOTES_AND_SEMICOLON_REGEX, 3)]

/-- `COMMON_C_DENYLIST_REGEX_TO_GROUP`. -/
def COMMON_C_DENYLIST_REGEX_TO_GROUP : RuleSet :=
  [(FOLLOWED_BY_EQUAL_SIGNS_OPTIONAL_BRACKETS_OPTIONAL_AT_SIGN_QUOTES_REQUIRED_REGEX, 6)]

/-- `C_PLUS_PLUS_REGEX_TO_GROUP`. -/
def C_PLUS_PLUS_REGEX_TO_GROUP : RuleSet :=
  [(FOLLOWED_BY_OPTIONAL_ASSIGN_QUOTES_REQUIRED_REGEX, 4),
   (FOLLOWED_BY_EQUAL_SIGNS_QUOTES_REQUIRED_REGEX, 5)]

/-- `QUOTES_REQUIRED_DENYLIST_REGEX_TO_GROUP`. -/
def QUOTES_REQUIRED_DENYLIST_REGEX_TO_GROUP : RuleSet :=
  [(FOLLOWED_BY_COLON_QUOTES_REQUIRED_REGEX, 5),
   (PRECEDED_BY_EQUAL_COMPARISON_SIGNS_QUOTES_REQUIRED_REGEX, 2),
   (FOLLOWED_BY_EQUAL_SIGNS_QUOTES_REQUIRED_REGEX, 5),
   (FOLLOWED_BY_QUOTES_AND_SEMICOLON_REGEX, 3),
   (FOLLOWED_BY_ARROW_FUNCTION_SIGN_QUOTES_REQUIRED_REGEX, 4),
   (DATA_PUT_PASSWORD_REGEX, 2)]

/-- `TERRAFORM_DENYLIST_REGEX_TO_GROUP`: the quotes-required set extended
with the unquoted equals-comparison family (dict-merge appends the new
key at the end). -/
def TERRAFORM_DENYLIST_REGEX_TO_GROUP : RuleSet :=
  QUOTES_REQUIRED_DENYLIST_REGEX_TO_GROUP ++ [(FOLLOWED_BY_EQUAL_SIGNS_REGEX, 5)]

/-- Modelled from the spec: the `FileType` category enum produced by the
external file-type classifier (`detect_secrets/util/filetype.py` is not
part of the sources in scope); constructors are the categories named in
spec section 6. -/
inductive FileType where
  | GO | OBJECTIVE_C | C_SHARP | C | C_PLUS_PLUS | CLS | JAVA | JAVASCRIPT
  | PYTHON | SWIFT | TERRAFORM | JSON | YAML | CONFIG | INI | PROPERTIES
  | TOML | UNKNOWN
  deriving DecidableEq

/-- `REGEX_BY_FILETYPE` (`keyword.py` lines 283-301), in source order;
`UNKNOWN` has no entry. -/
def REGEX_BY_FILETYPE : List (FileType × RuleSet) :=
  [(.GO, GOLANG_DENYLIST_REGEX_TO_GROUP),
   (.OBJECTIVE_C, COMMON_C_DENYLIST_REGEX_TO_GROUP),
   (.C_SHARP, COMMON_C_DENYLIST_REGEX_TO_GROUP),
   (.C, COMMON_C_DENYLIST_REGEX_TO_GROUP),
   (.C_PLUS_PLUS, C_PLUS_PLUS_REGEX_TO_GROUP),
   (.CLS, QUOTES_REQUIRED_DENYLIST_REGEX_TO_GROUP),
   (.JAVA, QUOTES_REQUIRED_DENYLIST_REGEX_TO_GROUP),
   (.JAVASCRIPT, QUOTES_REQUIRED_DENYLIST_REGEX_TO_GROUP),
   (.PYTHON, QUOTES_REQUIRED_DENYLIST_REGEX_TO_GROUP),
   (.SWIFT, QUOTES_REQUIRED_DENYLIST_REGEX_TO_GROUP),
   (.TERRAFORM, TERRAFORM_DENYLIST_REGEX_TO_GROUP),
   (.JSON, QUOTES_REQUIRED_DENYLIST_REGEX_TO_GROUP),
   (.YAML, CONFIG_DENYLIST_REGEX_TO_GROUP),
   (.CONFIG, CONFIG_DENYLIST_REGEX_TO_GROUP),
   (.INI, CONFIG_DENYLIST_REGEX_TO_GROUP),
   (.PROPERTIES, CONFIG_DENYLIST_REGEX_TO_GROUP),
   (.TOML, CONFIG_DENYLIST_REGEX_TO_GROUP)]

/-- Dictionary lookup over the filetype table. -/
def lookupFT : List (FileType × RuleSet) → FileType → Option RuleSet
  | [], _ => none
  | (f, rs) :: t, ft => if f = ft then some rs else lookupFT t ft

/-- `REGEX_BY_FILETYPE.get(filetype, QUOTES_REQUIRED_DENYLIST_REGEX_TO_GROUP)`. -/
def ruleSetForFiletype (ft : FileType) : RuleSet :=
  (lookupFT REGEX_BY_FILETYPE ft).getD QUOTES_REQUIRED_DENYLIST_REGEX_TO_GROUP

/-! ### KeywordDetector (`keyword.py` lines 304-377) -/

/-- `ALLOWLIST` (`keyword.py` lines 69-82). -/
def ALLOWLIST : List String :=
  ["publickeytoken", "tokenendpoint", "secretname", "keyvaultsecretname",
   "maxInvalidPasswordAttempts", "PasswordType", "forwardWindowsAuthToken",
   "saveBootstrapTokens", "AntiXsrfTokenKey", "savePWD", "userPWD", "example"]

/-- `needle.isPrefixOf hay` for character lists. -/
def isPrefixL : List Char → List Char → Bool
  | [], _ => true
  | _ :: _, [] => false
  | c :: n, d :: h => c = d && isPrefixL n h

/-- Substring containment, `needle in hay`. -/
def containsSub (needle : List Char) : List Char → Bool
  | [] => isPrefixL needle []
  | c :: h => isPrefixL needle (c :: h) || containsSub needle h

/-- `string.lower()` restricted to ASCII folding (every `ALLOWLIST` entry
is ASCII). -/
def lowerL (l : List Char) : List Char := l.map lowerChar

/-- `any(allowed.lower() in string.lower() for allowed in ALLOWLIST)`. -/
def allowlisted (s : List Char) : Bool :=
  ALLOWLIST.any (fun a => containsSub (lowerL a.data) (lowerL s))

/-- Detector state: because `re.compile` is deterministic, the compiled
exclusion pattern is represented by its pattern text; `none` models the
`self.keyword_exclude = None` state. -/
structure KeywordDetector where
  keyword_exclude : Option String

/-- `KeywordDetector.__init__(keyword_exclude)`: an absent or empty (falsy)
pattern leaves `keyword_exclude` as `None`. -/
def KeywordDetector.make (keyword_exclude : Option String) : KeywordDetector :=
  match keyword_exclude with
  | none => ⟨none⟩
  | some p => if p = "" then ⟨none⟩ else ⟨some p⟩

/-- The `keyword_exclude` entry of `KeywordDetector.json()`: the stored
pattern text, or the empty string. -/
def KeywordDetector.jsonKeywordExclude (d : KeywordDetector) : String :=
  match d.keyword_exclude with
  | some p => p
  | none => ""

/-- `self.keyword_exclude and self.keyword_exclude.search(string)`;
`compile` stands for `re.compile(pattern, re.IGNORECASE)`, kept abstract
because the exclusion pattern is caller-supplied text. -/
def excludeMatches (compile : String → CompiledRegex) (d : KeywordDetector)
    (s : List Char) : Bool :=
  match d.keyword_exclude with
  | none => false
  | some p => (searchCR (compile p) s).isSome

/-- Inner loop of `analyze_string`: one candidate (the designated capture
group) is yielded for EVERY family whose regex matches, in rule set
order. -/
def familyResults (s : List Char) : RuleSet → List (Option String)
  | [] => []
  | (cr, g) :: rest =>
    match searchCR cr s with
    | some r => groupStr s r.2.2 g :: familyResults s rest
    | none => familyResults s rest

/-- Outer loop of `analyze_string`: the `has_results` flag stops at the
first rule set of `attempts` that produced any result. -/
def attemptsLoop (s : List Char) : List RuleSet → List (Option String)
  | [] => []
  | rs :: rest =>
    let res := familyResults s rs
    if res.isEmpty then attemptsLoop s rest else res

/-- `KeywordDetector.analyze_string` (`keyword.py` lines 320-347), with the
generator flattened to the list of yielded values. -/
def analyzeString (compile : String → CompiledRegex) (d : KeywordDetector)
    (denylist_regex_to_group : Option RuleSet) (string : List Char) : List (Option String) :=
  if allowlisted string then []
  else if excludeMatches compile d string then []
  else
    attemptsLoop string
      (match denylist_regex_to_group with
       | none => [QUOTES_REQUIRED_DENYLIST_REGEX_TO_GROUP]
       | some rs => [rs])

/-- `KeywordDetector.analyze_line` (`keyword.py` lines 349-367) reduced to
the candidate strings it forwards: `determine_file_type` is the external
classifier (a black box), and the `BasePlugin.analyze_line` wrapper —
modelled from the spec: it only wraps each candidate into a result entity
and is not part of the sources in scope — preserves the candidate set. -/
def analyzeLine (compile : String → CompiledRegex) (d : KeywordDetector)
    (determine_file_type : String → FileType) (filename : String)
    (line : List Char) : List (Option String) :=
  analyzeString compile d (some (ruleSetForFiletype (determine_file_type filename))) line

/-- Stand-in for `re.compile(pattern, re.IGNORECASE)` in closed statements
whose detector carries no exclusion pattern (the function is then never
consulted). -/
def modelCompile : String → CompiledRegex := fun _ => ⟨.eps, true⟩

/-- The quote-balance property of a pattern family: in every successful
match, the capture group `nb` wrapping the back-reference holds exactly
the single quote character captured as the opening quote group `nq`. -/
def balancedQuoteGroups (qcls : CharClass) (cr : CompiledRegex) (nq nb : Nat) : Prop :=
  ∀ (s : List Char) (res : Nat × Nat × Groups), searchCR cr s = some res →
    groupStr s res.2.2 nb = groupStr s res.2.2 nq ∧
    ∃ q, groupStr s res.2.2 nq = some (String.mk [q]) ∧ evalClass qcls q = true

/-- The rule sets actually defined by the module (every value of
`REGEX_BY_FILETYPE` plus the default). -/
def definedRuleSets : List RuleSet :=
  [CONFIG_DENYLIST_REGEX_TO_GROUP, GOLANG_DENYLIST_REGEX_TO_GROUP,
   COMMON_C_DENYLIST_REGEX_TO_GROUP, C_PLUS_PLUS_REGEX_TO_GROUP,
   QUOTES_REQUIRED_DENYLIST_REGEX_TO_GROUP, TERRAFORM_DENYLIST_REGEX_TO_GROUP]

/-! ### Relational big-step semantics of the engine

`Sem s ic r i j gs gs2` says: `r` can consume the text of `s` from
position `i` to position `j`, transforming capture store `gs` into `gs2`.
The backtracking matcher is sound for this relation. -/

inductive Sem (s : List Char) (ic : Bool) : RE → Nat → Nat → Groups → Groups → Prop where
  | eps {i gs} : Sem s ic .eps i i gs gs
  | cls {p i c gs} : s.get? i = some c → charMatches ic p c = true →
      Sem s ic (.cls p) i (i + 1) gs gs
  | seq {a b i j l gs g1 g2} : Sem s ic a i j gs g1 → Sem s ic b j l g1 g2 →
      Sem s ic (.seq a b) i l gs g2
  | altL {a b i j gs g2} : Sem s ic a i j gs g2 → Sem s ic (.alt a b) i j gs g2
  | altR {a b i j gs g2} : Sem s ic b i j gs g2 → Sem s ic (.alt a b) i j gs g2
  | star {p i j gs} : i ≤ j →
      (∀ t, i ≤ t → t < j → ∃ c, s.get? t = some c ∧ charMatches ic p c = true) →
      Sem s ic (.starCls p) i j gs gs
  | lazy {p m i j gs} : i ≤ j → j ≤ i + m →
      (∀ t, i ≤ t → t < j → ∃ c, s.get? t = some c ∧ charMatches ic p c = true) →
      Sem s ic (.lazyRep p m) i j gs gs
  | group {n r i j gs g1} : Sem s ic r i j gs g1 →
      Sem s ic (.group n r) i j gs ((n, i, j) :: g1)
  | backref {n a b i gs} : lookupG gs n = some (a, b) →
      refMatch s ic i a (b - a) = true → Sem s ic (.backref n) i (i + (b - a)) gs gs
  | look {r i j gs g1} : Sem s ic r i j gs g1 → Sem s ic (.lookahead r) i i gs g1
  | word {i gs} : wordBoundary s i = true → Sem s ic .wordB i i gs gs

/-- Group `g` occurs in the expression only as a capture of `target`
(checked syntactically; used with `target := SECRET`). -/
def goodForB (g : Nat) (target : RE) : RE → Bool
  | .group n r => (if n = g then decide (r = target) else true) && goodForB g target r
  | .seq a b => goodForB g target a && goodForB g target b
  | .alt a b => goodForB g target a && goodForB g target b
  | .lookahead r => goodForB g target r
  | _ => true

/-- The expression contains no capture group at all. -/
def noGroupsB : RE → Bool
  | .group _ _ => false
  | .seq a b => noGroupsB a && noGroupsB b
  | .alt a b => noGroupsB a && noGroupsB b
  | .lookahead r => noGroupsB r
  | _ => true

/-- The expression can bind capture group `g` somewhere. -/
def bindsGroupB (g : Nat) : RE → Bool
  | .group n r => n = g || bindsGroupB g r
  | .seq a b => bindsGroupB g a || bindsGroupB g b
  | .alt a b => bindsGroupB g a || bindsGroupB g b
  | .lookahead r => bindsGroupB g r
  | _ => false

/-- Group `g` is captured on every path through the expression. -/
def mustBindB (g : Nat) : RE → Bool
  | .group n r => n = g || mustBindB g r
  | .seq a b => mustBindB g a || mustBindB g b
  | .alt a b => mustBindB g a && mustBindB g b
  | .lookahead r => mustBindB g r
  | _ => false

/-- The candidate-shape invariant of the `SECRET` fragment: non-empty,
first character alphanumeric or one of `_!@#%^&` (hence never a dollar
sign), no vertical tab or quote characters anywhere, and a last character
that is none of vertical tab, comma, quote, backtick. -/
def secretOKb (l : List Char) : Bool :=
  !l.isEmpty &&
  l.head?.all (fun c => evalClass .alnumStart c && !(c = '$')) &&
  l.all (fun c => !(c = vtab || c = '\'' || c = '"')) &&
  l.getLast?.all (fun c => !(c = vtab || c = ',' || c = '\'' || c = '"' || c = '`'))

/-- Two lines are equal up to ASCII letter case. -/
def caseEquiv (s t : List Char) : Prop := s.map lowerChar = t.map lowerChar

/-! ### Verification subsystem (spec section 4.5)

Modelled from the spec: the verifying detector (`IbmCloudIamDetector.verify`
and its transport) is not part of the sources in scope — only its test is —
so the state machine is taken from spec section 4.5 and the test
`ibm_cloud_iam_test.py`: the candidate may arrive as text or raw bytes and
both normalize to the same credential; a success response yields
VERIFIED_TRUE; the explicit authentication-failure status (400 at this
authority, per the test) yields VERIFIED_FALSE; an unreachable authority, a
timeout, or any unexpected status yields UNVERIFIED. -/

inductive VerifiedResult where
  | VERIFIED_TRUE | VERIFIED_FALSE | UNVERIFIED
  deriving DecidableEq

/-- What the external transport reports back for the single POST. -/
inductive TransportOutcome where
  | status (code : Nat)
  | unreachable
  | timeout
  deriving DecidableEq

/-- A candidate secret supplied as text or as raw bytes. -/
inductive SecretInput where
  | text (v : String)
  | bytes (v : List UInt8)
  deriving DecidableEq

/-- Modelled from the spec: both input forms normalize to the same
credential text before the request is issued. -/
def normalizeSecret : SecretInput → String
  | .text v => v
  | .bytes v => String.mk (v.map (fun b => Char.ofNat b.toNat))

/-- Modelled from the spec: the verification state machine, as a function
of the normalized candidate and the transport outcome. -/
def verify (input : SecretInput) (outcome : TransportOutcome) : VerifiedResult :=
  let _credential := normalizeSecret input
  match outcome with
  | .status code =>
    if code = 200 then .VERIFIED_TRUE
    else if code = 400 then .VERIFIED_FALSE
    else .UNVERIFIED
  | .unreachable => .UNVERIFIED
  | .timeout => .UNVERIFIED

/-! ## Theorems -/

theorem isPrefixL_iff (n h : List Char) : isPrefixL n h = true ↔ n <+: h := by
  induction n generalizing h with
  | nil => simp [isPrefixL]
  | cons c n ih =>
    cases h with
    | nil => simp [isPrefixL]
    | cons d t => simp [isPrefixL, List.cons_prefix_cons, ih, And.comm]

theorem containsSub_iff (n h : List Char) : containsSub n h = true ↔ n <:+: h := by
  induction h with
  | nil => simp [containsSub, isPrefixL_iff]
  | cons c t ih =>
    simp only [containsSub, Bool.or_eq_true, isPrefixL_iff, ih, List.infix_cons_iff]

theorem allowlisted_of_mem {s : List Char}
    (h : ∃ a ∈ ALLOWLIST, lowerL a.data <:+: lowerL s) : allowlisted s = true := by
  obtain ⟨a, ha, hinf⟩ := h
  unfold allowlisted
  rw [List.any_eq_true]
  exact ⟨a, ha, (containsSub_iff _ _).mpr hinf⟩

/-- C2: a line containing any allowlist entry as a case-insensitive
substring yields no candidates from `analyze_string` (hence none from
`analyze_line`), for every detector, rule set and classifier: the
allowlist veto is checked before the exclusion pattern and before any
pattern family. -/
theorem allowlist_veto (compile : String → CompiledRegex) (d : KeywordDetector)
    (rsOpt : Option RuleSet) (s : List Char)
    (h : ∃ a ∈ ALLOWLIST, lowerL a.data <:+: lowerL s) :
    analyzeString compile d rsOpt s = [] ∧
      ∀ dft fn, analyzeLine compile d dft fn s = [] := by
  have hb : allowlisted s = true := allowlisted_of_mem h
  constructor
  · unfold analyzeString
    simp [hb]
  · intro dft fn
    unfold analyzeLine analyzeString
    simp [hb]

/-- Witness for C2 at the spec scenario line `tokenEndpoint=verysecretvalue`. -/
theorem allowlist_veto_witness :
    analyzeString modelCompile ⟨none⟩ none "tokenEndpoint=verysecretvalue".data = [] :=
  (allowlist_veto modelCompile ⟨none⟩ none _
    ⟨"tokenendpoint", by decide, by decide⟩).1

/-- C3: the rule set `analyze_line` hands to `analyze_string` is computed
from the file category alone (the line is not consulted); the category
`UNKNOWN` has no entry in `REGEX_BY_FILETYPE` and falls back to the
quotes-required default, and every unmapped category selects exactly the
rule set that `UNKNOWN` selects. -/
theorem ruleset_by_category_only :
    (∀ compile d dft fn line, analyzeLine compile d dft fn line =
      analyzeString compile d (some (ruleSetForFiletype (dft fn))) line) ∧
    ruleSetForFiletype .UNKNOWN = QUOTES_REQUIRED_DENYLIST_REGEX_TO_GROUP ∧
    (∀ ft : FileType, (lookupFT REGEX_BY_FILETYPE ft).isNone = true →
      ruleSetForFiletype ft = ruleSetForFiletype .UNKNOWN) := by
  refine ⟨fun _ _ _ _ _ => rfl, rfl, fun ft h => ?_⟩
  unfold ruleSetForFiletype
  rw [Option.isNone_iff_eq_none.mp h]
  rfl

/-- Witness for C3: `UNKNOWN` itself is unmapped and selects the
quotes-required default. -/
theorem ruleset_by_category_only_witness :
    ruleSetForFiletype .UNKNOWN = ruleSetForFiletype .UNKNOWN ∧
    ruleSetForFiletype .UNKNOWN = QUOTES_REQUIRED_DENYLIST_REGEX_TO_GROUP :=
  ⟨ruleset_by_category_only.2.2 .UNKNOWN (by rfl), ruleset_by_category_only.2.1⟩

theorem make_roundtrip (ke : Option String) :
    KeywordDetector.make (some ((KeywordDetector.make ke).jsonKeywordExclude)) =
      KeywordDetector.make ke := by
  match ke with
  | none => rfl
  | some p =>
    by_cases h : p = ""
    · subst h; rfl
    · simp [KeywordDetector.make, KeywordDetector.jsonKeywordExclude, h]

/-- C8: serialization round trip — rebuilding a detector from the
`keyword_exclude` entry of its own `json()` yields a detector with the
same matching behavior on every line and rule set. -/
theorem json_roundtrip (compile : String → CompiledRegex) (ke : Option String)
    (rsOpt : Option RuleSet) (s : List Char) :
    analyzeString compile
      (KeywordDetector.make (some ((KeywordDetector.make ke).jsonKeywordExclude))) rsOpt s =
    analyzeString compile (KeywordDetector.make ke) rsOpt s := by
  rw [make_roundtrip]

/-- C10: constructing a detector from the empty exclusion pattern is the
same as constructing it with no pattern: `keyword_exclude` is `None`, the
exclusion check never suppresses a line, `analyze_string` agrees on every
input, and `json()` serializes the exclusion as the empty string. -/
theorem empty_exclude_is_none :
    KeywordDetector.make (some "") = KeywordDetector.make none ∧
    (KeywordDetector.make (some "")).keyword_exclude = none ∧
    (∀ compile s, excludeMatches compile (KeywordDetector.make (some "")) s = false) ∧
    (∀ compile rsOpt s, analyzeString compile (KeywordDetector.make (some "")) rsOpt s =
      analyzeString compile (KeywordDetector.make none) rsOpt s) ∧
    (KeywordDetector.make (some "")).jsonKeywordExclude = "" :=
  ⟨rfl, rfl, fun _ _ => rfl, fun _ _ _ => rfl, rfl⟩

/-- C6: `my_password := "hunter2"` yields exactly the candidate `hunter2`
under the GO rule set, extracted by the colon-equals family (group 4 of
its match); the same line under the JSON rule set (which has no
colon-equals family) yields no candidates. -/
theorem go_vs_json_scenario : ∀ compile : String → CompiledRegex,
    analyzeString compile ⟨none⟩ (some (ruleSetForFiletype .GO))
      "my_password := \"hunter2\"".data = [some "hunter2"] ∧
    (searchCR FOLLOWED_BY_COLON_EQUAL_SIGNS_REGEX "my_password := \"hunter2\"".data).map
      (fun r => groupStr "my_password := \"hunter2\"".data r.2.2 4) = some (some "hunter2") ∧
    analyzeString compile ⟨none⟩ (some (ruleSetForFiletype .JSON))
      "my_password := \"hunter2\"".data = [] :=
  fun _ => ⟨rfl, rfl, rfl⟩

/-- Counterexample to C1 as stated: on `token := "a" password = "b"`, both
the colon-equals family and the equals family of the GO rule set match,
and `analyze_string` yields TWO candidates, one from each family — not
exactly one from the first family: the inner family loop never breaks. -/
theorem first_match_only_cex :
    analyzeString modelCompile ⟨none⟩ (some GOLANG_DENYLIST_REGEX_TO_GROUP)
      "token := \"a\" password = \"b\"".data = [some "a", some "b"] ∧
    (searchCR FOLLOWED_BY_COLON_EQUAL_SIGNS_REGEX
      "token := \"a\" password = \"b\"".data).isSome = true ∧
    (searchCR FOLLOWED_BY_EQUAL_SIGNS_REGEX
      "token := \"a\" password = \"b\"".data).isSome = true ∧
    (analyzeString modelCompile ⟨none⟩ (some GOLANG_DENYLIST_REGEX_TO_GROUP)
      "token := \"a\" password = \"b\"".data).length ≠ 1 := by
  refine ⟨by decide, by decide, by decide, by decide⟩

theorem attemptsLoop_single (s : List Char) (rs : RuleSet) :
    attemptsLoop s [rs] = familyResults s rs := by
  unfold attemptsLoop
  rcases h : familyResults s rs with _ | ⟨a, t⟩ <;> simp [h, attemptsLoop]

theorem familyResults_eq_filterMap (s : List Char) (rs : RuleSet) :
    familyResults s rs =
      rs.filterMap (fun pg => (searchCR pg.1 s).map (fun r => groupStr s r.2.2 pg.2)) := by
  induction rs with
  | nil => rfl
  | cons pg rest ih =>
    unfold familyResults
    rcases h : searchCR pg.1 s with _ | r <;>
      simp [List.filterMap_cons, h, ih]

/-- C1 amended: when neither the allowlist veto nor the exclusion pattern
fires, `analyze_string` on an explicit rule set yields one candidate (the
designated capture group) for EVERY family whose regex matches, in the
rule set's order; the first-match short-circuit applies across the list of
rule-set attempts, not across families inside one rule set. -/
theorem each_matching_family_yields (compile : String → CompiledRegex)
    (d : KeywordDetector) (rs : RuleSet) (s : List Char)
    (hallow : allowlisted s = false) (hex : excludeMatches compile d s = false) :
    analyzeString compile d (some rs) s =
      rs.filterMap (fun pg => (searchCR pg.1 s).map (fun r => groupStr s r.2.2 pg.2)) := by
  unfold analyzeString
  simp only [hallow, hex, Bool.false_eq_true, if_false]
  rw [attemptsLoop_single, familyResults_eq_filterMap]

/-- Witness for C1 amended at the counterexample line. -/
theorem each_matching_family_yields_witness :
    analyzeString modelCompile ⟨none⟩ (some GOLANG_DENYLIST_REGEX_TO_GROUP)
      "token := \"a\" password = \"b\"".data =
      GOLANG_DENYLIST_REGEX_TO_GROUP.filterMap
        (fun pg => (searchCR pg.1 "token := \"a\" password = \"b\"".data).map
          (fun r => groupStr "token := \"a\" password = \"b\"".data r.2.2 pg.2)) :=
  each_matching_family_yields modelCompile ⟨none⟩ _ _ (by decide) (by decide)

/-- C9: whether the candidate arrives as text or as raw bytes, `verify`
answers VERIFIED_FALSE exactly on the explicit authentication-failure
status of the authority (400, per the test); an unreachable authority, a
timeout, or an unexpected status always resolves to UNVERIFIED, never to
VERIFIED_FALSE. -/
theorem verify_false_needs_explicit_rejection :
    (∀ inp outcome, verify inp outcome = .VERIFIED_FALSE → outcome = .status 400) ∧
    (∀ inp, verify inp (.status 400) = .VERIFIED_FALSE) ∧
    (∀ inp, verify inp .unreachable = .UNVERIFIED) ∧
    (∀ inp, verify inp .timeout = .UNVERIFIED) ∧
    (∀ inp code, code ≠ 200 → code ≠ 400 → verify inp (.status code) = .UNVERIFIED) ∧
    (∀ t b outcome, verify (.text t) outcome = verify (.bytes b) outcome) := by
  refine ⟨?_, fun _ => rfl, fun _ => rfl, fun _ => rfl, ?_, ?_⟩
  · intro inp outcome h
    cases outcome with
    | status code =>
      unfold verify at h
      by_cases h200 : code = 200
      · simp [h200] at h
      · by_cases h400 : code = 400
        · rw [h400]
        · simp [h200, h400] at h
    | unreachable => exact absurd h (by simp [verify])
    | timeout => exact absurd h (by simp [verify])
  · intro inp code h200 h400
    simp [verify, h200, h400]
  · intro t b outcome
    cases outcome <;> rfl

/-- Witness for C9: a revoked credential rejected with status 400 is
VERIFIED_FALSE; the same credential against an unreachable or erroring
authority is UNVERIFIED. -/
theorem verify_false_needs_explicit_rejection_witness :
    verify (.text "ukYEEX38") (.status 400) = .VERIFIED_FALSE ∧
    verify (.text "ukYEEX38") .unreachable = .UNVERIFIED ∧
    verify (.text "ukYEEX38") (.status 500) = .UNVERIFIED :=
  ⟨verify_false_needs_explicit_rejection.2.1 _,
   verify_false_needs_explicit_rejection.2.2.1 _,
   verify_false_needs_explicit_rejection.2.2.2.2.1 _ 500 (by decide) (by decide)⟩


theorem toNat_ofNat_valid (n : Nat) (h : n < 55296) : (Char.ofNat n).toNat = n := by
  unfold Char.ofNat
  rw [dif_pos (Or.inl h : Nat.isValidChar n)]
  rfl

theorem isUp_iff (c : Char) : isUp c = true ↔ 65 ≤ c.toNat ∧ c.toNat ≤ 90 := by
  unfold isUp
  rw [Bool.and_eq_true, decide_eq_true_eq, decide_eq_true_eq]
  exact Iff.rfl

theorem isLow_iff (c : Char) : isLow c = true ↔ 97 ≤ c.toNat ∧ c.toNat ≤ 122 := by
  unfold isLow
  rw [Bool.and_eq_true, decide_eq_true_eq, decide_eq_true_eq]
  exact Iff.rfl

theorem lowerChar_toNat_of_up {c : Char} (h : isUp c = true) :
    (lowerChar c).toNat = c.toNat + 32 := by
  unfold lowerChar
  rw [if_pos h]
  exact toNat_ofNat_valid _ (by have := (isUp_iff c).mp h; omega)

theorem lowerChar_id_of_not_up {c : Char} (h : isUp c = false) : lowerChar c = c := by
  unfold lowerChar
  rw [h]
  rfl

theorem upperChar_id_of_not_low {c : Char} (h : isLow c = false) : upperChar c = c := by
  unfold upperChar
  rw [h]
  rfl

theorem isLow_false_of_up {c : Char} (h : isUp c = true) : isLow c = false := by
  have hb := (isUp_iff c).mp h
  rcases hl : isLow c with _ | _
  · rfl
  · have := (isLow_iff c).mp hl
    omega

theorem isUp_false_of_low {c : Char} (h : isLow c = true) : isUp c = false := by
  have hb := (isLow_iff c).mp h
  rcases hl : isUp c with _ | _
  · rfl
  · have := (isUp_iff c).mp hl
    omega

theorem lower_or_upper (c : Char) : c = lowerChar c ∨ c = upperChar c := by
  rcases h : isUp c with _ | _
  · exact Or.inl (lowerChar_id_of_not_up h).symm
  · exact Or.inr (upperChar_id_of_not_low (isLow_false_of_up h)).symm

theorem isLow_lowerChar_of_up {c : Char} (h : isUp c = true) : isLow (lowerChar c) = true := by
  rw [isLow_iff, lowerChar_toNat_of_up h]
  have := (isUp_iff c).mp h
  omega

theorem upper_lower (c : Char) : upperChar (lowerChar c) = upperChar c := by
  rcases h : isUp c with _ | _
  · rw [lowerChar_id_of_not_up h]
  · have h1 : upperChar (lowerChar c) = c := by
      unfold upperChar
      rw [if_pos (isLow_lowerChar_of_up h), lowerChar_toNat_of_up h]
      have h2 : c.toNat + 32 - 32 = c.toNat := by omega
      rw [h2, Char.ofNat_toNat]
    rw [h1, upperChar_id_of_not_low (isLow_false_of_up h)]

theorem charMatches_true_eq (p : CharClass) (c : Char) :
    charMatches true p c = (evalClass p (lowerChar c) || evalClass p (upperChar c)) := by
  unfold charMatches
  rw [Bool.true_and]
  rcases lower_or_upper c with h | h
  · rw [← h]
    cases evalClass p c <;> simp
  · rw [← h]
    cases evalClass p c <;> cases evalClass p (lowerChar c) <;> simp

theorem charMatches_congr {c d : Char} (p : CharClass) (h : lowerChar c = lowerChar d) :
    charMatches true p c = charMatches true p d := by
  rw [charMatches_true_eq, charMatches_true_eq, ← upper_lower c, ← upper_lower d, h]

theorem charEqCI_true_eq (c d : Char) :
    charEqCI true c d = decide (lowerChar c = lowerChar d) := by
  unfold charEqCI
  rw [Bool.true_and]
  by_cases h : c = d
  · subst h
    simp
  · simp [h]

theorem isUp_eq_isUpper (c : Char) : isUp c = c.isUpper := rfl

theorem isLow_eq_isLower (c : Char) : isLow c = c.isLower := rfl

theorem isWordChar_lower (c : Char) : isWordChar (lowerChar c) = isWordChar c := by
  rcases h : isUp c with _ | _
  · rw [lowerChar_id_of_not_up h]
  · have h1 : isWordChar c = true := by
      unfold isWordChar Char.isAlphanum Char.isAlpha
      rw [← isUp_eq_isUpper, h]
      simp
    have h2 : isWordChar (lowerChar c) = true := by
      unfold isWordChar Char.isAlphanum Char.isAlpha
      rw [← isLow_eq_isLower, isLow_lowerChar_of_up h]
      simp
    rw [h1, h2]

theorem isWordChar_congr {c d : Char} (h : lowerChar c = lowerChar d) :
    isWordChar c = isWordChar d := by
  rw [← isWordChar_lower c, ← isWordChar_lower d, h]

theorem caseEquiv_length {s t : List Char} (h : caseEquiv s t) : s.length = t.length := by
  have h2 := congrArg List.length h
  simpa using h2

theorem caseEquiv_drop {s t : List Char} (h : caseEquiv s t) (i : Nat) :
    caseEquiv (s.drop i) (t.drop i) := by
  unfold caseEquiv
  rw [List.map_drop, List.map_drop, h]

theorem caseEquiv_get? {s t : List Char} (h : caseEquiv s t) (i : Nat) :
    (s.get? i = none ∧ t.get? i = none) ∨
      ∃ c d, s.get? i = some c ∧ t.get? i = some d ∧ lowerChar c = lowerChar d := by
  have h2 : (s.get? i).map lowerChar = (t.get? i).map lowerChar := by
    rw [← List.get?_map, ← List.get?_map, h]
  rcases hs : s.get? i with _ | c <;> rcases ht : t.get? i with _ | d <;>
    rw [hs, ht] at h2 <;> simp at h2
  · exact Or.inl ⟨rfl, rfl⟩
  · exact Or.inr ⟨c, d, rfl, rfl, h2⟩

theorem runLen_ci {p : CharClass} {u v : List Char} (h : caseEquiv u v) :
    runLen (charMatches true p) u = runLen (charMatches true p) v := by
  induction u generalizing v with
  | nil =>
    cases v with
    | nil => rfl
    | cons d v => exact absurd h (by simp [caseEquiv])
  | cons c u ih =>
    cases v with
    | nil => exact absurd h (by simp [caseEquiv])
    | cons d v =>
      unfold caseEquiv at h
      simp only [List.map_cons, List.cons.injEq] at h
      unfold runLen
      rw [charMatches_congr p h.1]
      cases charMatches true p d
      · rfl
      · rw [if_pos rfl, if_pos rfl, ih h.2]

theorem tryDown_congr {k kt : Nat → Groups → Option (Nat × Groups)} {i : Nat} {gs : Groups}
    (hk : ∀ j g, k j g = kt j g) : ∀ n, tryDown k i gs n = tryDown kt i gs n := by
  intro n
  induction n with
  | zero => exact hk i gs
  | succ n ih =>
    unfold tryDown
    rw [hk]
    cases kt (i + (n + 1)) gs
    · exact ih
    · rfl

theorem refMatch_ci {s t : List Char} (h : caseEquiv s t) :
    ∀ len i a, refMatch s true i a len = refMatch t true i a len := by
  intro len
  induction len with
  | zero => intro i a; rfl
  | succ len ih =>
    intro i a
    unfold refMatch
    rcases caseEquiv_get? h i with ⟨hs, ht⟩ | ⟨c, d, hs, ht, hcd⟩
    · rw [hs, ht]
    · rcases caseEquiv_get? h a with ⟨hs2, ht2⟩ | ⟨c2, d2, hs2, ht2, hcd2⟩
      · rw [hs, ht, hs2, ht2]
      · simp only [hs, ht, hs2, ht2]
        rw [charEqCI_true_eq, charEqCI_true_eq, hcd, hcd2, ih]

theorem isWordAt_ci {s t : List Char} (h : caseEquiv s t) (i : Nat) :
    isWordAt s i = isWordAt t i := by
  unfold isWordAt
  rcases caseEquiv_get? h i with ⟨hs, ht⟩ | ⟨c, d, hs, ht, hcd⟩
  · rw [hs, ht]
  · simp only [hs, ht]
    exact isWordChar_congr hcd

theorem wordBoundary_ci {s t : List Char} (h : caseEquiv s t) (i : Nat) :
    wordBoundary s i = wordBoundary t i := by
  unfold wordBoundary
  rw [isWordAt_ci h, isWordAt_ci h]

theorem lazyLoop_ci {s t : List Char} (h : caseEquiv s t) {p : CharClass}
    {k kt : Nat → Groups → Option (Nat × Groups)} {i : Nat} {gs : Groups}
    (hk : ∀ j g, k j g = kt j g) :
    ∀ b j, lazyLoop s true p k i gs j b = lazyLoop t true p kt i gs j b := by
  intro b
  induction b with
  | zero => intro j; exact hk _ gs
  | succ b ih =>
    intro j
    unfold lazyLoop
    rw [hk]
    cases kt (i + j) gs
    · rcases caseEquiv_get? h (i + j) with ⟨hs, ht⟩ | ⟨c, d, hs, ht, hcd⟩
      · simp only [hs, ht]
      · simp only [hs, ht]
        rw [charMatches_congr p hcd]
        cases charMatches true p d
        · rfl
        · rw [if_pos rfl, if_pos rfl, ih]
    · rfl

theorem mat_ci {s t : List Char} (h : caseEquiv s t) (r : RE) :
    ∀ i gs (k kt : Nat → Groups → Option (Nat × Groups)),
      (∀ j g, k j g = kt j g) → mat s true r i gs k = mat t true r i gs kt := by
  induction r with
  | eps => intro i gs k kt hk; exact hk i gs
  | cls p =>
    intro i gs k kt hk
    unfold mat
    rcases caseEquiv_get? h i with ⟨hs, ht⟩ | ⟨c, d, hs, ht, hcd⟩
    · rw [hs, ht]
    · simp only [hs, ht]
      rw [charMatches_congr p hcd]
      cases charMatches true p d
      · rfl
      · rw [if_pos rfl, if_pos rfl, hk]
  | seq a b iha ihb =>
    intro i gs k kt hk
    unfold mat
    exact iha i gs _ _ (fun j g => ihb j g k kt hk)
  | alt a b iha ihb =>
    intro i gs k kt hk
    unfold mat
    rw [iha i gs k kt hk]
    cases mat t true a i gs kt
    · exact ihb i gs k kt hk
    · rfl
  | starCls p =>
    intro i gs k kt hk
    unfold mat
    rw [runLen_ci (caseEquiv_drop h i)]
    exact tryDown_congr hk _
  | lazyRep p m =>
    intro i gs k kt hk
    unfold mat
    exact lazyLoop_ci h hk m 0
  | group n r ih =>
    intro i gs k kt hk
    unfold mat
    exact ih i gs _ _ (fun j g => hk j ((n, i, j) :: g))
  | backref n =>
    intro i gs k kt hk
    unfold mat
    cases lookupG gs n with
    | none => rfl
    | some ab =>
      obtain ⟨a, b⟩ := ab
      show (if refMatch s true i a (b - a) = true then k (i + (b - a)) gs else none) =
        (if refMatch t true i a (b - a) = true then kt (i + (b - a)) gs else none)
      rw [refMatch_ci h]
      cases refMatch t true i a (b - a)
      · rfl
      · rw [if_pos rfl, if_pos rfl, hk]
  | lookahead r ih =>
    intro i gs k kt hk
    unfold mat
    rw [ih i gs (fun j g2 => some (j, g2)) (fun j g2 => some (j, g2)) (fun _ _ => rfl)]
    cases mat t true r i gs (fun j g2 => some (j, g2))
    · rfl
    · exact hk _ _
  | wordB =>
    intro i gs k kt hk
    unfold mat
    rw [wordBoundary_ci h]
    cases wordBoundary t i
    · rfl
    · rw [if_pos rfl, if_pos rfl, hk]

theorem searchFrom_ci {s t : List Char} (h : caseEquiv s t) (re : RE) :
    ∀ fuel i, searchFrom re true s fuel i = searchFrom re true t fuel i := by
  intro fuel
  induction fuel with
  | zero =>
    intro i
    unfold searchFrom
    rw [mat_ci h re i [] _ _ (fun _ _ => rfl)]
  | succ f ih =>
    intro i
    unfold searchFrom
    rw [mat_ci h re i [] _ _ (fun _ _ => rfl)]
    cases mat t true re i [] (fun j g => some (j, g)) with
    | none =>
      show searchFrom re true s f (i + 1) = searchFrom re true t f (i + 1)
      exact ih (i + 1)
    | some jg => rfl

theorem searchCR_ci {s t : List Char} (h : caseEquiv s t) (cr : CompiledRegex)
    (hic : cr.ic = true) : searchCR cr s = searchCR cr t := by
  unfold searchCR
  rw [hic, caseEquiv_length h, searchFrom_ci h]

/-- Counterexample to C4 as stated: the constructor/assign-call family is
compiled without IGNORECASE, so `secret("bar")` yields the candidate `bar`
under the C++ rule set while `SECRET("bar")` — the same line with the
keyword case altered — yields no candidate at all. -/
theorem keyword_case_cex :
    analyzeString modelCompile ⟨none⟩ (some C_PLUS_PLUS_REGEX_TO_GROUP)
      "secret(\"bar\")".data = [some "bar"] ∧
    (searchCR FOLLOWED_BY_OPTIONAL_ASSIGN_QUOTES_REQUIRED_REGEX "secret(\"bar\")".data).map
      (fun r => groupStr "secret(\"bar\")".data r.2.2 4) = some (some "bar") ∧
    analyzeString modelCompile ⟨none⟩ (some C_PLUS_PLUS_REGEX_TO_GROUP)
      "SECRET(\"bar\")".data = [] ∧
    searchCR FOLLOWED_BY_OPTIONAL_ASSIGN_QUOTES_REQUIRED_REGEX "SECRET(\"bar\")".data = none :=
  ⟨by decide, by decide, by decide, by decide⟩

/-- C4 amended: the nine families compiled with IGNORECASE match
case-insensitively — for any two lines equal up to ASCII letter case, the
match result and every capture span coincide, and whenever the altered
characters lie outside the designated capture group the candidate string
is identical. The right-to-left comparison family and the
constructor/assign-call family are compiled without IGNORECASE and are
case-sensitive (see the counterexample). -/
theorem ignorecase_families_case_invariant :
    (FOLLOWED_BY_COLON_EQUAL_SIGNS_REGEX.ic = true ∧
     FOLLOWED_BY_COLON_REGEX.ic = true ∧
     FOLLOWED_BY_COLON_QUOTES_REQUIRED_REGEX.ic = true ∧
     FOLLOWED_BY_EQUAL_SIGNS_OPTIONAL_BRACKETS_OPTIONAL_AT_SIGN_QUOTES_REQUIRED_REGEX.ic = true ∧
     FOLLOWED_BY_EQUAL_SIGNS_REGEX.ic = true ∧
     FOLLOWED_BY_EQUAL_SIGNS_QUOTES_REQUIRED_REGEX.ic = true ∧
     FOLLOWED_BY_QUOTES_AND_SEMICOLON_REGEX.ic = true ∧
     FOLLOWED_BY_ARROW_FUNCTION_SIGN_QUOTES_REQUIRED_REGEX.ic = true ∧
     DATA_PUT_PASSWORD_REGEX.ic = true) ∧
    (∀ (cr : CompiledRegex) (g : Nat) (s t : List Char), cr.ic = true → caseEquiv s t →
      searchCR cr s = searchCR cr t ∧
      (∀ res a b, searchCR cr s = some res → lookupG res.2.2 g = some (a, b) →
        extractL s a b = extractL t a b →
        (searchCR cr s).map (fun r => groupStr s r.2.2 g) =
          (searchCR cr t).map (fun r => groupStr t r.2.2 g))) := by
  refine ⟨⟨rfl, rfl, rfl, rfl, rfl, rfl, rfl, rfl, rfl⟩, ?_⟩
  intro cr g s t hic hc
  refine ⟨searchCR_ci hc cr hic, ?_⟩
  intro res a b hres hlook hext
  rw [← searchCR_ci hc cr hic, hres]
  show some (groupStr s res.2.2 g) = some (groupStr t res.2.2 g)
  unfold groupStr
  rw [hlook]
  show some (some (String.mk (extractL s a b))) = some (some (String.mk (extractL t a b)))
  rw [hext]

/-- Witness for C4 amended: altering the keyword case of `password:x` to
`PASSWORD:x` leaves the candidate of the colon family unchanged. -/
theorem ignorecase_families_case_invariant_witness :
    (searchCR FOLLOWED_BY_COLON_REGEX "password:x".data).map
      (fun r => groupStr "password:x".data r.2.2 4) =
    (searchCR FOLLOWED_BY_COLON_REGEX "PASSWORD:x".data).map
      (fun r => groupStr "PASSWORD:x".data r.2.2 4) :=
  (ignorecase_families_case_invariant.2 FOLLOWED_BY_COLON_REGEX 4 _ _ rfl
    (by unfold caseEquiv; decide)).2
    (0, 10, [(5, 10, 10), (4, 9, 10), (3, 9, 9), (2, 8, 8), (1, 0, 8)]) 9 10
    (by decide) (by decide) (by decide)


theorem tryDown_sound {k : Nat → Groups → Option (Nat × Groups)} {i : Nat} {gs : Groups}
    {res : Nat × Groups} :
    ∀ n, tryDown k i gs n = some res → ∃ m, m ≤ n ∧ k (i + m) gs = some res := by
  intro n
  induction n with
  | zero =>
    intro h
    exact ⟨0, Nat.le_refl 0, by rw [Nat.add_zero]; exact h⟩
  | succ n ih =>
    intro h
    unfold tryDown at h
    split at h
    · rename_i r hm
      exact ⟨n + 1, Nat.le_refl _, by rw [hm]; exact h⟩
    · obtain ⟨m, hle, hk⟩ := ih h
      exact ⟨m, Nat.le_succ_of_le hle, hk⟩

theorem runLen_le_length (t : Char → Bool) (l : List Char) : runLen t l ≤ l.length := by
  induction l with
  | nil => exact Nat.le_refl 0
  | cons c rest ih =>
    unfold runLen
    cases t c
    · exact Nat.zero_le _
    · simpa using Nat.succ_le_succ ih

theorem runLen_pred (t : Char → Bool) (l : List Char) :
    ∀ j, j < runLen t l → ∃ c, l.get? j = some c ∧ t c = true := by
  induction l with
  | nil => intro j h; exact absurd h (by simp [runLen])
  | cons c rest ih =>
    intro j h
    unfold runLen at h
    rcases ht : t c with _ | _
    · rw [ht] at h
      simp at h
    · rw [ht] at h
      simp at h
      cases j with
      | zero => exact ⟨c, rfl, ht⟩
      | succ j =>
        obtain ⟨d, hg, hd⟩ := ih j (by omega)
        exact ⟨d, hg, hd⟩

theorem lazyLoop_sound {s : List Char} {ic : Bool} {p : CharClass}
    {k : Nat → Groups → Option (Nat × Groups)} {i : Nat} {gs : Groups}
    {res : Nat × Groups} :
    ∀ b j, lazyLoop s ic p k i gs j b = some res →
      ∃ m, j ≤ m ∧ m ≤ j + b ∧
        (∀ u, j ≤ u → u < m → ∃ c, s.get? (i + u) = some c ∧ charMatches ic p c = true) ∧
        k (i + m) gs = some res := by
  intro b
  induction b with
  | zero =>
    intro j h
    exact ⟨j, Nat.le_refl j, Nat.le_refl j,
      fun u h1 h2 => absurd (Nat.lt_of_le_of_lt h1 h2) (Nat.lt_irrefl j), h⟩
  | succ b ih =>
    intro j h
    unfold lazyLoop at h
    split at h
    · rename_i r hk
      refine ⟨j, Nat.le_refl j, by omega,
        fun u h1 h2 => absurd (Nat.lt_of_le_of_lt h1 h2) (Nat.lt_irrefl j), ?_⟩
      rw [hk]
      exact h
    · rename_i hk
      split at h
      · rename_i c hg
        split at h
        · rename_i hc
          obtain ⟨m, h1, h2, h3, h4⟩ := ih (j + 1) h
          refine ⟨m, by omega, by omega, ?_, h4⟩
          intro u hu1 hu2
          rcases Nat.eq_or_lt_of_le hu1 with he | hl
          · exact ⟨c, by rw [← he]; exact hg, hc⟩
          · exact h3 u hl hu2
        · exact absurd h (by simp)
      · exact absurd h (by simp)

theorem mat_sound {s : List Char} {ic : Bool} (r : RE) :
    ∀ i gs (k : Nat → Groups → Option (Nat × Groups)) res,
      mat s ic r i gs k = some res →
      ∃ j g2, Sem s ic r i j gs g2 ∧ k j g2 = some res := by
  induction r with
  | eps =>
    intro i gs k res h
    exact ⟨i, gs, Sem.eps, h⟩
  | cls p =>
    intro i gs k res h
    unfold mat at h
    split at h
    · rename_i c hg
      split at h
      · rename_i hc
        exact ⟨i + 1, gs, Sem.cls hg hc, h⟩
      · exact absurd h (by simp)
    · exact absurd h (by simp)
  | seq a b iha ihb =>
    intro i gs k res h
    unfold mat at h
    obtain ⟨j, g1, hsa, hk1⟩ := iha i gs _ res h
    obtain ⟨l, g2, hsb, hk2⟩ := ihb j g1 k res hk1
    exact ⟨l, g2, Sem.seq hsa hsb, hk2⟩
  | alt a b iha ihb =>
    intro i gs k res h
    unfold mat at h
    split at h
    · rename_i r0 hm
      obtain ⟨j, g2, hs, hk⟩ := iha i gs k res (by rw [hm]; exact h)
      exact ⟨j, g2, Sem.altL hs, hk⟩
    · obtain ⟨j, g2, hs, hk⟩ := ihb i gs k res h
      exact ⟨j, g2, Sem.altR hs, hk⟩
  | starCls p =>
    intro i gs k res h
    unfold mat at h
    obtain ⟨m, hle, hk⟩ := tryDown_sound _ h
    refine ⟨i + m, gs, Sem.star (Nat.le_add_right i m) ?_, hk⟩
    intro t h1 h2
    have hj : t - i < runLen (charMatches ic p) (s.drop i) := by omega
    obtain ⟨c, hg, hc⟩ := runLen_pred _ _ _ hj
    rw [List.get?_drop] at hg
    have he : i + (t - i) = t := by omega
    rw [he] at hg
    exact ⟨c, hg, hc⟩
  | lazyRep p m =>
    intro i gs k res h
    unfold mat at h
    obtain ⟨m2, h1, h2, h3, h4⟩ := lazyLoop_sound m 0 h
    refine ⟨i + m2, gs, Sem.lazy (Nat.le_add_right i m2) (by omega) ?_, h4⟩
    intro t ht1 ht2
    obtain ⟨c, hg, hc⟩ := h3 (t - i) (by omega) (by omega)
    have he : i + (t - i) = t := by omega
    rw [he] at hg
    exact ⟨c, hg, hc⟩
  | group n r ih =>
    intro i gs k res h
    unfold mat at h
    obtain ⟨j, g1, hs, hk⟩ := ih i gs _ res h
    exact ⟨j, (n, i, j) :: g1, Sem.group hs, hk⟩
  | backref n =>
    intro i gs k res h
    unfold mat at h
    rcases hl : lookupG gs n with _ | ⟨a, b⟩
    · rw [hl] at h
      exact absurd h (by simp)
    · rw [hl] at h
      have h2 : (if refMatch s ic i a (b - a) = true then k (i + (b - a)) gs else none) =
          some res := h
      by_cases hr : refMatch s ic i a (b - a) = true
      · rw [if_pos hr] at h2
        exact ⟨i + (b - a), gs, Sem.backref hl hr, h2⟩
      · rw [if_neg hr] at h2
        exact absurd h2 (by simp)
  | lookahead r ih =>
    intro i gs k res h
    unfold mat at h
    split at h
    · rename_i p0 j0 g0 hm
      obtain ⟨j, g2, hs, hk⟩ := ih i gs _ _ hm
      simp only [Option.some.injEq, Prod.mk.injEq] at hk
      exact ⟨i, g2, Sem.look hs, by rw [hk.2]; exact h⟩
    · exact absurd h (by simp)
  | wordB =>
    intro i gs k res h
    unfold mat at h
    split at h
    · rename_i hw
      exact ⟨i, gs, Sem.word hw, h⟩
    · exact absurd h (by simp)

theorem searchFrom_sound {s : List Char} {ic : Bool} {re : RE} :
    ∀ fuel i st en g, searchFrom re ic s fuel i = some (st, en, g) →
      mat s ic re st [] (fun j g2 => some (j, g2)) = some (en, g) := by
  intro fuel
  induction fuel with
  | zero =>
    intro i st en g h
    unfold searchFrom at h
    split at h
    · rename_i j g0 hm
      simp only [Option.some.injEq, Prod.mk.injEq] at h
      rw [h.1] at hm
      rw [hm, h.2.1, h.2.2]
    · exact absurd h (by simp)
  | succ f ih =>
    intro i st en g h
    unfold searchFrom at h
    split at h
    · rename_i j g0 hm
      simp only [Option.some.injEq, Prod.mk.injEq] at h
      rw [h.1] at hm
      rw [hm, h.2.1, h.2.2]
    · exact ih (i + 1) st en g h

theorem searchCR_sem {cr : CompiledRegex} {s : List Char} {res : Nat × Nat × Groups}
    (h : searchCR cr s = some res) :
    Sem s cr.ic cr.re res.1 res.2.1 [] res.2.2 := by
  obtain ⟨st, en, g⟩ := res
  have hm := searchFrom_sound _ _ _ _ _ h
  obtain ⟨j, g2, hs, hk⟩ := mat_sound cr.re st [] _ _ hm
  simp only [Option.some.injEq, Prod.mk.injEq] at hk
  rw [← hk.1, ← hk.2]
  exact hs


theorem lookupG_cons_ne {n g : Nat} {i j : Nat} {gs : Groups} (h : n ≠ g) :
    lookupG ((n, i, j) :: gs) g = lookupG gs g := by
  show (if n = g then some (i, j) else lookupG gs g) = lookupG gs g
  rw [if_neg h]

theorem lookupG_cons_eq {g i j : Nat} {gs : Groups} :
    lookupG ((g, i, j) :: gs) g = some (i, j) := by
  show (if g = g then some (i, j) else lookupG gs g) = some (i, j)
  rw [if_pos rfl]

theorem sem_group_opt {s : List Char} {ic : Bool} {g : Nat} {r : RE}
    {i j : Nat} {gs gs2 : Groups} (h : Sem s ic r i j gs gs2) :
    goodForB g SECRET r = true →
      lookupG gs2 g = lookupG gs g ∨
        ∃ a b, lookupG gs2 g = some (a, b) ∧ ∃ ga gb, Sem s ic SECRET a b ga gb := by
  induction h with
  | eps => intro _; exact Or.inl rfl
  | cls _ _ => intro _; exact Or.inl rfl
  | seq h1 h2 ih1 ih2 =>
    intro hgood
    rw [goodForB, Bool.and_eq_true] at hgood
    rcases ih2 hgood.2 with he | hr
    · rcases ih1 hgood.1 with he1 | hr1
      · exact Or.inl (he.trans he1)
      · obtain ⟨a, b, hl, hsem⟩ := hr1
        exact Or.inr ⟨a, b, he.trans hl, hsem⟩
    · exact Or.inr hr
  | altL h1 ih =>
    intro hgood
    rw [goodForB, Bool.and_eq_true] at hgood
    exact ih hgood.1
  | altR h1 ih =>
    intro hgood
    rw [goodForB, Bool.and_eq_true] at hgood
    exact ih hgood.2
  | star _ _ => intro _; exact Or.inl rfl
  | lazy _ _ _ => intro _; exact Or.inl rfl
  | group h1 ih =>
    rename_i n r0 i0 j0 gs0 g1
    intro hgood
    rw [goodForB, Bool.and_eq_true] at hgood
    by_cases hn : n = g
    · subst hn
      rw [if_pos rfl] at hgood
      have hr0 : r0 = SECRET := of_decide_eq_true hgood.1
      subst hr0
      exact Or.inr ⟨i0, j0, lookupG_cons_eq, gs0, g1, h1⟩
    · rw [lookupG_cons_ne hn]
      exact ih hgood.2
  | backref _ _ => intro _; exact Or.inl rfl
  | look h1 ih =>
    intro hgood
    rw [goodForB] at hgood
    exact ih hgood
  | word _ => intro _; exact Or.inl rfl

theorem sem_group_tot {s : List Char} {ic : Bool} {g : Nat} {r : RE}
    {i j : Nat} {gs gs2 : Groups} (h : Sem s ic r i j gs gs2) :
    goodForB g SECRET r = true → mustBindB g r = true →
      ∃ a b, lookupG gs2 g = some (a, b) ∧ ∃ ga gb, Sem s ic SECRET a b ga gb := by
  induction h with
  | eps => intro _ hm; exact absurd hm (by simp [mustBindB])
  | cls _ _ => intro _ hm; exact absurd hm (by simp [mustBindB])
  | seq h1 h2 ih1 ih2 =>
    intro hgood hmust
    rw [goodForB, Bool.and_eq_true] at hgood
    rw [mustBindB, Bool.or_eq_true] at hmust
    rcases sem_group_opt h2 hgood.2 with he | hr
    · rw [he]
      rcases hmust with hm | hm
      · exact ih1 hgood.1 hm
      · obtain ⟨a, b, hl, hsem⟩ := ih2 hgood.2 hm
        rw [he] at hl
        exact ⟨a, b, hl, hsem⟩
    · exact hr
  | altL h1 ih =>
    intro hgood hmust
    rw [goodForB, Bool.and_eq_true] at hgood
    rw [mustBindB, Bool.and_eq_true] at hmust
    exact ih hgood.1 hmust.1
  | altR h1 ih =>
    intro hgood hmust
    rw [goodForB, Bool.and_eq_true] at hgood
    rw [mustBindB, Bool.and_eq_true] at hmust
    exact ih hgood.2 hmust.2
  | star _ _ => intro _ hm; exact absurd hm (by simp [mustBindB])
  | lazy _ _ _ => intro _ hm; exact absurd hm (by simp [mustBindB])
  | group h1 ih =>
    rename_i n r0 i0 j0 gs0 g1
    intro hgood hmust
    rw [goodForB, Bool.and_eq_true] at hgood
    by_cases hn : n = g
    · subst hn
      rw [if_pos rfl] at hgood
      have hr0 : r0 = SECRET := of_decide_eq_true hgood.1
      subst hr0
      exact ⟨i0, j0, lookupG_cons_eq, gs0, g1, h1⟩
    · rw [mustBindB, Bool.or_eq_true] at hmust
      rcases hmust with hm | hm
      · exact absurd (of_decide_eq_true hm) hn
      · rw [lookupG_cons_ne hn]
        exact ih hgood.2 hm
  | backref _ _ => intro _ hm; exact absurd hm (by simp [mustBindB])
  | look h1 ih =>
    intro hgood hmust
    rw [goodForB] at hgood
    rw [mustBindB] at hmust
    exact ih hgood hmust
  | word _ => intro _ hm; exact absurd hm (by simp [mustBindB])


theorem upperChar_toNat_of_low {c : Char} (h : isLow c = true) :
    (upperChar c).toNat = c.toNat - 32 := by
  unfold upperChar
  rw [if_pos h]
  exact toNat_ofNat_valid _ (by have := (isLow_iff c).mp h; omega)

theorem upperChar_id_of_not_low2 {c : Char} (h : ¬ isLow c = true) : upperChar c = c := by
  unfold upperChar
  rw [if_neg h]

theorem isUp_upperChar_of_low {c : Char} (h : isLow c = true) : isUp (upperChar c) = true := by
  rw [isUp_iff, upperChar_toNat_of_low h]
  have := (isLow_iff c).mp h
  omega

theorem beq_lowerChar_nonletter {c x : Char} (hxu : isUp x = false) (hxl : isLow x = false) :
    (lowerChar c == x) = (c == x) := by
  rcases h : isUp c with _ | _
  · rw [lowerChar_id_of_not_up h]
  · have h1 : lowerChar c ≠ x := by
      intro he
      have h2 := isLow_lowerChar_of_up h
      rw [he, hxl] at h2
      exact Bool.noConfusion h2
    have h2 : c ≠ x := by
      intro he
      rw [he, hxu] at h
      exact Bool.noConfusion h
    rw [beq_eq_false_iff_ne.mpr h1, beq_eq_false_iff_ne.mpr h2]

theorem beq_upperChar_nonletter {c x : Char} (hxu : isUp x = false) (hxl : isLow x = false) :
    (upperChar c == x) = (c == x) := by
  rcases h : isLow c with _ | _
  · rw [upperChar_id_of_not_low h]
  · have h1 : upperChar c ≠ x := by
      intro he
      have h2 := isUp_upperChar_of_low h
      rw [he, hxu] at h2
      exact Bool.noConfusion h2
    have h2 : c ≠ x := by
      intro he
      rw [he, hxl] at h
      exact Bool.noConfusion h
    rw [beq_eq_false_iff_ne.mpr h1, beq_eq_false_iff_ne.mpr h2]

theorem contains_lower_of_nonletters :
    ∀ (l : List Char), (∀ x ∈ l, isUp x = false ∧ isLow x = false) →
      ∀ c, l.contains (lowerChar c) = l.contains c := by
  intro l hl c
  induction l with
  | nil => rfl
  | cons x t ih =>
    rw [List.contains_cons, List.contains_cons,
      beq_lowerChar_nonletter (hl x (by simp)).1 (hl x (by simp)).2,
      ih (fun y hy => hl y (by simp [hy]))]

theorem contains_upper_of_nonletters :
    ∀ (l : List Char), (∀ x ∈ l, isUp x = false ∧ isLow x = false) →
      ∀ c, l.contains (upperChar c) = l.contains c := by
  intro l hl c
  induction l with
  | nil => rfl
  | cons x t ih =>
    rw [List.contains_cons, List.contains_cons,
      beq_upperChar_nonletter (hl x (by simp)).1 (hl x (by simp)).2,
      ih (fun y hy => hl y (by simp [hy]))]

theorem isAlphanum_lower (c : Char) : (lowerChar c).isAlphanum = c.isAlphanum := by
  rcases h : isUp c with _ | _
  · rw [lowerChar_id_of_not_up h]
  · have h1 : c.isAlphanum = true := by
      unfold Char.isAlphanum Char.isAlpha
      rw [← isUp_eq_isUpper, h]
      simp
    have h2 : (lowerChar c).isAlphanum = true := by
      unfold Char.isAlphanum Char.isAlpha
      rw [← isLow_eq_isLower, isLow_lowerChar_of_up h]
      simp
    rw [h1, h2]

theorem isAlphanum_upper (c : Char) : (upperChar c).isAlphanum = c.isAlphanum := by
  rcases h : isLow c with _ | _
  · rw [upperChar_id_of_not_low h]
  · have h1 : c.isAlphanum = true := by
      unfold Char.isAlphanum Char.isAlpha
      rw [← isLow_eq_isLower, h]
      simp
    have h2 : (upperChar c).isAlphanum = true := by
      unfold Char.isAlphanum Char.isAlpha
      rw [← isUp_eq_isUpper, isUp_upperChar_of_low h]
      simp
    rw [h1, h2]

theorem evalClass_bodyC_lower (c : Char) :
    evalClass bodyC (lowerChar c) = evalClass bodyC c := by
  show (!([vtab, '\'', '"'].contains (lowerChar c))) = (!([vtab, '\'', '"'].contains c))
  rw [contains_lower_of_nonletters _ (by decide) c]

theorem evalClass_bodyC_upper (c : Char) :
    evalClass bodyC (upperChar c) = evalClass bodyC c := by
  show (!([vtab, '\'', '"'].contains (upperChar c))) = (!([vtab, '\'', '"'].contains c))
  rw [contains_upper_of_nonletters _ (by decide) c]

theorem evalClass_lastC_lower (c : Char) :
    evalClass lastC (lowerChar c) = evalClass lastC c := by
  show (!([vtab, ',', '\'', '"', '`'].contains (lowerChar c))) =
    (!([vtab, ',', '\'', '"', '`'].contains c))
  rw [contains_lower_of_nonletters _ (by decide) c]

theorem evalClass_lastC_upper (c : Char) :
    evalClass lastC (upperChar c) = evalClass lastC c := by
  show (!([vtab, ',', '\'', '"', '`'].contains (upperChar c))) =
    (!([vtab, ',', '\'', '"', '`'].contains c))
  rw [contains_upper_of_nonletters _ (by decide) c]

theorem evalClass_quote_lower (c : Char) :
    evalClass QUOTE_CLASS (lowerChar c) = evalClass QUOTE_CLASS c := by
  show ['\'', '"', '`'].contains (lowerChar c) = ['\'', '"', '`'].contains c
  rw [contains_lower_of_nonletters _ (by decide) c]

theorem evalClass_quote_upper (c : Char) :
    evalClass QUOTE_CLASS (upperChar c) = evalClass QUOTE_CLASS c := by
  show ['\'', '"', '`'].contains (upperChar c) = ['\'', '"', '`'].contains c
  rw [contains_upper_of_nonletters _ (by decide) c]

theorem evalClass_alnumStart_lower (c : Char) :
    evalClass .alnumStart (lowerChar c) = evalClass .alnumStart c := by
  show ((lowerChar c).isAlphanum || _) = (c.isAlphanum || _)
  rw [isAlphanum_lower, contains_lower_of_nonletters _ (by decide) c]

theorem evalClass_alnumStart_upper (c : Char) :
    evalClass .alnumStart (upperChar c) = evalClass .alnumStart c := by
  show ((upperChar c).isAlphanum || _) = (c.isAlphanum || _)
  rw [isAlphanum_upper, contains_upper_of_nonletters _ (by decide) c]

theorem charMatches_caseClosed {p : CharClass}
    (hlo : ∀ c, evalClass p (lowerChar c) = evalClass p c)
    (hup : ∀ c, evalClass p (upperChar c) = evalClass p c) (ic : Bool) (c : Char) :
    charMatches ic p c = evalClass p c := by
  unfold charMatches
  rw [hlo, hup]
  cases ic <;> cases evalClass p c <;> simp

theorem charMatches_bodyC (ic : Bool) (c : Char) :
    charMatches ic bodyC c = evalClass bodyC c :=
  charMatches_caseClosed evalClass_bodyC_lower evalClass_bodyC_upper ic c

theorem charMatches_lastC (ic : Bool) (c : Char) :
    charMatches ic lastC c = evalClass lastC c :=
  charMatches_caseClosed evalClass_lastC_lower evalClass_lastC_upper ic c

theorem charMatches_quote (ic : Bool) (c : Char) :
    charMatches ic QUOTE_CLASS c = evalClass QUOTE_CLASS c :=
  charMatches_caseClosed evalClass_quote_lower evalClass_quote_upper ic c

theorem charMatches_alnumStart (ic : Bool) (c : Char) :
    charMatches ic .alnumStart c = evalClass .alnumStart c :=
  charMatches_caseClosed evalClass_alnumStart_lower evalClass_alnumStart_upper ic c

theorem sem_secret_shape {s : List Char} {ic : Bool} {a b : Nat} {ga gb : Groups}
    (h : Sem s ic SECRET a b ga gb) :
    ∃ j3, a ≤ j3 ∧ b = j3 + 1 ∧
      (∃ c, s.get? a = some c ∧ evalClass .alnumStart c = true) ∧
      (∀ t, a ≤ t → t < j3 → ∃ c, s.get? t = some c ∧ evalClass bodyC c = true) ∧
      (∃ d, s.get? j3 = some d ∧ evalClass lastC d = true) := by
  unfold SECRET at h
  cases h with
  | seq h1 h2 =>
    cases h1 with
    | look _ =>
      cases h2 with
      | seq h3 h4 =>
        cases h3 with
        | look h3i =>
          cases h3i with
          | cls hg hc =>
            cases h4 with
            | seq h5 h6 =>
              cases h5 with
              | star hle hchars =>
                cases h6 with
                | cls hgd hcd =>
                  refine ⟨_, hle, rfl, ⟨_, hg, ?_⟩, ?_, ⟨_, hgd, ?_⟩⟩
                  · rw [← charMatches_alnumStart ic]
                    exact hc
                  · intro t ht1 ht2
                    obtain ⟨e, hge, hce⟩ := hchars t ht1 ht2
                    exact ⟨e, hge, by rw [← charMatches_bodyC ic e]; exact hce⟩
                  · rw [← charMatches_lastC ic]
                    exact hcd


theorem extractL_get? {s : List Char} {a b t : Nat} (ht : t < b - a) :
    (extractL s a b).get? t = s.get? (a + t) := by
  unfold extractL
  rw [List.get?_take ht, List.get?_drop]

theorem extractL_length {s : List Char} {a b : Nat} (hb : b ≤ s.length) :
    (extractL s a b).length = b - a := by
  unfold extractL
  rw [List.length_take, List.length_drop]
  omega

theorem bodyC_not3 {c : Char} (h : evalClass bodyC c = true) :
    ¬(c = vtab ∨ c = '\'' ∨ c = '"') := by
  intro hc
  rcases hc with h1 | h1 | h1 <;> subst h1 <;> revert h <;> decide

theorem lastC_not5 {c : Char} (h : evalClass lastC c = true) :
    ¬(c = vtab ∨ c = ',' ∨ c = '\'' ∨ c = '"' ∨ c = '`') := by
  intro hc
  rcases hc with h1 | h1 | h1 | h1 | h1 <;> subst h1 <;> revert h <;> decide

theorem lastC_not3 {c : Char} (h : evalClass lastC c = true) :
    ¬(c = vtab ∨ c = '\'' ∨ c = '"') := by
  intro hc
  have h5 := lastC_not5 h
  tauto

theorem alnumStart_ne_dollar {c : Char} (h : evalClass .alnumStart c = true) : c ≠ '$' := by
  intro he
  subst he
  revert h
  decide

theorem secretOK_of_shape {s : List Char} {a b j3 : Nat}
    (h1 : a ≤ j3) (h2 : b = j3 + 1)
    (hstart : ∃ c, s.get? a = some c ∧ evalClass .alnumStart c = true)
    (hbody : ∀ t, a ≤ t → t < j3 → ∃ c, s.get? t = some c ∧ evalClass bodyC c = true)
    (hlast : ∃ d, s.get? j3 = some d ∧ evalClass lastC d = true) :
    secretOKb (extractL s a b) = true := by
  obtain ⟨c0, hg0, hc0⟩ := hstart
  obtain ⟨d, hgl, hdl⟩ := hlast
  have hblen : j3 < s.length := by
    obtain ⟨hlt, -⟩ := List.get?_eq_some.mp hgl
    exact hlt
  have hL : (extractL s a b).length = b - a := extractL_length (by omega)
  have hidx : ∀ t, t < b - a → ∃ c, (extractL s a b).get? t = some c ∧
      ¬(c = vtab ∨ c = '\'' ∨ c = '"') := by
    intro t ht
    rcases Nat.lt_or_ge (a + t) j3 with hlt | hge
    · obtain ⟨c, hg, hc⟩ := hbody (a + t) (by omega) hlt
      exact ⟨c, by rw [extractL_get? ht]; exact hg, bodyC_not3 hc⟩
    · have he : a + t = j3 := by omega
      exact ⟨d, by rw [extractL_get? ht, he]; exact hgl, lastC_not3 hdl⟩
  rcases hE : extractL s a b with _ | ⟨x, xs⟩
  · rw [hE] at hL
    simp at hL
    omega
  · rw [hE] at hidx hL
    have hhead : (x :: xs).head? = s.get? a := by
      rw [← List.get?_zero, ← hE, extractL_get? (by omega), Nat.add_zero]
    rw [List.head?_cons, hg0] at hhead
    have hx : x = c0 := by
      injection hhead
    have hlast2 : (x :: xs).getLast? = some d := by
      rw [List.getLast?_eq_get?, hL, ← hE, extractL_get? (by omega)]
      have he : a + (b - a - 1) = j3 := by omega
      rw [he]
      exact hgl
    unfold secretOKb
    rw [List.head?_cons, hlast2]
    rw [Bool.and_eq_true, Bool.and_eq_true, Bool.and_eq_true]
    refine ⟨⟨⟨rfl, ?_⟩, ?_⟩, ?_⟩
    · rw [hx]
      show (evalClass .alnumStart c0 && !(c0 = '$' : Bool)) = true
      rw [hc0, Bool.true_and, decide_eq_false (alnumStart_ne_dollar hc0)]
      rfl
    · rw [List.all_eq_true]
      intro c hc
      obtain ⟨n, hn⟩ := List.mem_iff_get?.mp hc
      have hnlen : n < b - a := by
        obtain ⟨hlt, -⟩ := List.get?_eq_some.mp hn
        omega
      obtain ⟨c', hg', hp⟩ := hidx n hnlen
      rw [hn] at hg'
      have hcc : c = c' := by injection hg'
      subst hcc
      rw [not_or, not_or] at hp
      simp [hp.1, hp.2.1, hp.2.2]
    · show (!(d = vtab || d = ',' || d = '\'' || d = '"' || d = '`' : Bool)) = true
      have h5 := lastC_not5 hdl
      rw [not_or, not_or, not_or, not_or] at h5
      simp [h5.1, h5.2.1, h5.2.2.1, h5.2.2.2.1, h5.2.2.2.2]


theorem searchCR_secret {cr : CompiledRegex} {g : Nat} {s : List Char}
    {res : Nat × Nat × Groups}
    (hgood : goodForB g SECRET cr.re = true) (hmust : mustBindB g cr.re = true)
    (h : searchCR cr s = some res) :
    ∃ v, groupStr s res.2.2 g = some v ∧ secretOKb v.data = true := by
  have hsem := searchCR_sem h
  obtain ⟨a, b, hl, ga, gb, hsecret⟩ := sem_group_tot hsem hgood hmust
  obtain ⟨j3, hj1, hj2, hstart, hbody, hlast⟩ := sem_secret_shape hsecret
  refine ⟨String.mk (extractL s a b), ?_, ?_⟩
  · unfold groupStr
    rw [hl]
    rfl
  · show secretOKb (String.mk (extractL s a b)).data = true
    have hd : (String.mk (extractL s a b)).data = extractL s a b := rfl
    rw [hd]
    exact secretOK_of_shape hj1 hj2 hstart hbody hlast

theorem familyResults_mem {s : List Char} {rs : RuleSet} {o : Option String}
    (ho : o ∈ familyResults s rs) :
    ∃ pg ∈ rs, ∃ res, searchCR pg.1 s = some res ∧ o = groupStr s res.2.2 pg.2 := by
  induction rs with
  | nil => exact absurd ho (by simp [familyResults])
  | cons pg rest ih =>
    unfold familyResults at ho
    split at ho
    · rename_i res hres
      rcases List.mem_cons.mp ho with he | hm
      · exact ⟨pg, List.mem_cons_self pg rest, res, hres, he⟩
      · obtain ⟨pg2, hpg2, res2, hres2, heq2⟩ := ih hm
        exact ⟨pg2, List.mem_cons_of_mem pg hpg2, res2, hres2, heq2⟩
    · obtain ⟨pg2, hpg2, res2, hres2, heq2⟩ := ih ho
      exact ⟨pg2, List.mem_cons_of_mem pg hpg2, res2, hres2, heq2⟩

/-- C7: every candidate yielded by `analyze_string` — under the default
rule set or any of the module's defined rule sets — is an actual string
(the designated group always participates) that is non-empty, begins with
an alphanumeric character or one of `_!@#%^&` (in particular never `$`),
contains no vertical tab and no quote characters, and does not end in a
vertical tab, comma, quote, or backtick; this is forced by the `SECRET`
fragment that every family captures in its designated group. -/
theorem candidates_are_secret_shaped (compile : String → CompiledRegex)
    (d : KeywordDetector) (rsOpt : Option RuleSet) (s : List Char) (o : Option String)
    (hrs : rsOpt = none ∨ ∃ rs ∈ definedRuleSets, rsOpt = some rs)
    (ho : o ∈ analyzeString compile d rsOpt s) :
    ∃ v, o = some v ∧ secretOKb v.data = true := by
  have hall : definedRuleSets.all
      (fun rs => rs.all (fun pg => goodForB pg.2 SECRET pg.1.re && mustBindB pg.2 pg.1.re)) =
      true := by decide
  unfold analyzeString at ho
  rcases ha : allowlisted s with _ | _
  · rw [ha] at ho
    rcases he : excludeMatches compile d s with _ | _
    · rw [he] at ho
      simp only [Bool.false_eq_true, if_false] at ho
      have hquot : QUOTES_REQUIRED_DENYLIST_REGEX_TO_GROUP ∈ definedRuleSets := by
        unfold definedRuleSets
        exact .tail _ (.tail _ (.tail _ (.tail _ (.head _))))
      obtain ⟨rs0, hrs0mem, hloop⟩ :
          ∃ rs0, rs0 ∈ definedRuleSets ∧
            o ∈ attemptsLoop s [rs0] := by
        rcases hrs with hn | ⟨rs, hmem, hsome⟩
        · subst hn
          exact ⟨QUOTES_REQUIRED_DENYLIST_REGEX_TO_GROUP, hquot, ho⟩
        · subst hsome
          exact ⟨rs, hmem, ho⟩
      rw [attemptsLoop_single] at hloop
      obtain ⟨pg, hpg, res, hres, heq⟩ := familyResults_mem hloop
      have hrsall := List.all_eq_true.mp hall rs0 hrs0mem
      have hpgall := List.all_eq_true.mp hrsall pg hpg
      rw [Bool.and_eq_true] at hpgall
      obtain ⟨v, hv, hsec⟩ := searchCR_secret hpgall.1 hpgall.2 hres
      exact ⟨v, by rw [heq]; exact hv, hsec⟩
    · rw [he] at ho
      simp at ho
  · rw [ha] at ho
    simp at ho

/-- Witness for C7 at the spec scenario line under the default rule set. -/
theorem candidates_are_secret_shaped_witness :
    (some "x") ∈ analyzeString modelCompile ⟨none⟩ none "password: \"x\"".data ∧
    ∃ v, (some "x" : Option String) = some v ∧ secretOKb v.data = true :=
  ⟨by decide, candidates_are_secret_shaped modelCompile ⟨none⟩ none "password: \"x\"".data
    (some "x") (Or.inl rfl) (by decide)⟩


theorem sem_no_groups {s : List Char} {ic : Bool} {r : RE} {i j : Nat} {gs gs2 : Groups}
    (h : Sem s ic r i j gs gs2) : noGroupsB r = true → gs2 = gs := by
  induction h with
  | eps => intro _; rfl
  | cls _ _ => intro _; rfl
  | seq h1 h2 ih1 ih2 =>
    intro hng
    rw [noGroupsB, Bool.and_eq_true] at hng
    rw [ih2 hng.2, ih1 hng.1]
  | altL h1 ih =>
    intro hng
    rw [noGroupsB, Bool.and_eq_true] at hng
    exact ih hng.1
  | altR h1 ih =>
    intro hng
    rw [noGroupsB, Bool.and_eq_true] at hng
    exact ih hng.2
  | star _ _ => intro _; rfl
  | lazy _ _ _ => intro _; rfl
  | group h1 ih => intro hng; exact absurd hng (by simp [noGroupsB])
  | backref _ _ => intro _; rfl
  | look h1 ih =>
    intro hng
    rw [noGroupsB] at hng
    exact ih hng
  | word _ => intro _; rfl

theorem extract_single {s : List Char} {n : Nat} {c : Char} (h : s.get? n = some c) :
    extractL s n (n + 1) = [c] := by
  obtain ⟨hlt, hget⟩ := List.get?_eq_some.mp h
  unfold extractL
  rw [List.drop_eq_get_cons hlt, hget]
  simp

theorem quote_class_cases {q : Char} (h : evalClass QUOTE_CLASS q = true) :
    q = '\'' ∨ q = '"' ∨ q = '`' := by
  revert h
  show ['\'', '"', '`'].contains q = true → _
  rw [List.contains_cons, List.contains_cons, List.contains_cons, List.contains_nil]
  intro h
  rcases (Bool.or_eq_true _ _).mp h with h1 | h1
  · exact Or.inl (beq_iff_eq.mp h1)
  · rcases (Bool.or_eq_true _ _).mp h1 with h2 | h2
    · exact Or.inr (Or.inl (beq_iff_eq.mp h2))
    · rcases (Bool.or_eq_true _ _).mp h2 with h3 | h3
      · exact Or.inr (Or.inr (beq_iff_eq.mp h3))
      · exact absurd h3 (by simp)

theorem charEqCI_quote_eq {ic : Bool} {d q : Char} (hq : evalClass QUOTE_CLASS q = true)
    (h : charEqCI ic d q = true) : d = q := by
  unfold charEqCI at h
  rw [Bool.or_eq_true] at h
  rcases h with h | h
  · exact of_decide_eq_true h
  · rw [Bool.and_eq_true] at h
    have hld : lowerChar d = lowerChar q := of_decide_eq_true h.2
    have hqn : isUp q = false ∧ isLow q = false := by
      rcases quote_class_cases hq with h1 | h1 | h1 <;> subst h1 <;> exact ⟨by decide, by decide⟩
    rw [lowerChar_id_of_not_up hqn.1] at hld
    rcases hu : isUp d with _ | _
    · rw [lowerChar_id_of_not_up hu] at hld
      exact hld
    · have hl2 := isLow_lowerChar_of_up hu
      rw [hld, hqn.2] at hl2
      exact Bool.noConfusion hl2

theorem sem_group_cls {s : List Char} {ic : Bool} {n : Nat} {p : CharClass}
    {i j : Nat} {gs gs2 : Groups} (h : Sem s ic (.group n (.cls p)) i j gs gs2) :
    ∃ c, s.get? i = some c ∧ charMatches ic p c = true ∧ j = i + 1 ∧
      gs2 = (n, i, i + 1) :: gs := by
  cases h with
  | group hi =>
    cases hi with
    | cls hg hc => exact ⟨_, hg, hc, rfl, rfl⟩

theorem sem_group_backref {s : List Char} {ic : Bool} {n m : Nat}
    {i j : Nat} {gs gs2 : Groups} (h : Sem s ic (.group n (.backref m)) i j gs gs2) :
    ∃ a b, lookupG gs m = some (a, b) ∧ refMatch s ic i a (b - a) = true ∧
      j = i + (b - a) ∧ gs2 = (n, i, i + (b - a)) :: gs := by
  cases h with
  | group hi =>
    cases hi with
    | backref hl hr => exact ⟨_, _, hl, hr, rfl, rfl⟩

theorem sem_group_secret {s : List Char} {ic : Bool} {n : Nat}
    {i j : Nat} {gs gs2 : Groups} (h : Sem s ic (.group n SECRET) i j gs gs2) :
    gs2 = (n, i, j) :: gs := by
  cases h with
  | group hi => rw [sem_no_groups hi (by decide)]

theorem refMatch_one {s : List Char} {ic : Bool} {i a : Nat}
    (h : refMatch s ic i a 1 = true) :
    ∃ c d, s.get? i = some c ∧ s.get? a = some d ∧ charEqCI ic c d = true := by
  unfold refMatch at h
  split at h
  · rename_i c d hgc hgd
    rw [Bool.and_eq_true] at h
    exact ⟨c, d, hgc, hgd, h.1⟩
  · exact absurd h (by simp)

theorem sem_quote_suffix {s : List Char} {ic : Bool} {i j : Nat} {gmid gs2 : Groups}
    (h : Sem s ic (.seq (.group 4 (.cls QUOTE_CLASS))
      (.seq (.group 5 SECRET) (.group 6 (.backref 4)))) i j gmid gs2) :
    ∃ q p4 p6, s.get? p4 = some q ∧ evalClass QUOTE_CLASS q = true ∧
      s.get? p6 = some q ∧
      lookupG gs2 4 = some (p4, p4 + 1) ∧ lookupG gs2 6 = some (p6, p6 + 1) := by
  cases h with
  | seq h4 h56 =>
    cases h56 with
    | seq h5 h6 =>
      obtain ⟨q, hgq, hcq, hj4, hg4⟩ := sem_group_cls h4
      subst hj4
      subst hg4
      have hq : evalClass QUOTE_CLASS q = true := by
        rw [← charMatches_quote ic q]
        exact hcq
      have hg5 := sem_group_secret h5
      subst hg5
      obtain ⟨a, b, hlook, hrm, hj6, hg6⟩ := sem_group_backref h6
      subst hj6
      subst hg6
      rw [lookupG_cons_ne (by decide), lookupG_cons_eq] at hlook
      have h2 := (Option.some.injEq _ _).mp hlook
      have ha : i = a := congrArg Prod.fst h2
      have hb : i + 1 = b := congrArg Prod.snd h2
      subst ha
      subst hb
      have hlen : i + 1 - i = 1 := by omega
      rw [hlen] at hrm
      obtain ⟨c, d, hgc, hgd, hci⟩ := refMatch_one hrm
      have hdq : d = q := by
        rw [hgq] at hgd
        exact ((Option.some.injEq _ _).mp hgd).symm
      rw [hdq] at hci
      have hcq2 : c = q := charEqCI_quote_eq hq hci
      rw [hcq2] at hgc
      refine ⟨q, i, _, hgq, hq, hgc, ?_, ?_⟩
      · rw [lookupG_cons_ne (by decide), lookupG_cons_ne (by decide), lookupG_cons_eq]
      · rw [hlen, lookupG_cons_eq]

theorem colon_qr_backref_balance {s : List Char} {res : Nat × Nat × Groups}
    (h : searchCR FOLLOWED_BY_COLON_QUOTES_REQUIRED_REGEX s = some res) :
    groupStr s res.2.2 6 = groupStr s res.2.2 4 ∧
    ∃ q, groupStr s res.2.2 4 = some (String.mk [q]) ∧ evalClass QUOTE_CLASS q = true := by
  have hsem2 : Sem s true (.seq (DENYLIST_REGEX 1) (.seq (opt (.group 2 CLOSING_RE))
      (.seq (.cls (.eqc ':')) (.seq (.group 3 WS) (.seq (.group 4 (.cls QUOTE_CLASS))
      (.seq (.group 5 SECRET) (.group 6 (.backref 4)))))))) res.1 res.2.1 [] res.2.2 :=
    searchCR_sem h
  cases hsem2 with
  | seq h1 hr1 =>
    cases hr1 with
    | seq h2 hr2 =>
      cases hr2 with
      | seq h3 hr3 =>
        cases hr3 with
        | seq h4 hr4 =>
          obtain ⟨q, p4, p6, hgq, hq, hgp6, hl4, hl6⟩ := sem_quote_suffix hr4
          constructor
          · unfold groupStr
            rw [hl4, hl6]
            simp only [Option.map_some']
            rw [extract_single hgq, extract_single hgp6]
          · refine ⟨q, ?_, hq⟩
            unfold groupStr
            rw [hl4]
            simp only [Option.map_some']
            rw [extract_single hgq]

theorem eq_qr_backref_balance {s : List Char} {res : Nat × Nat × Groups}
    (h : searchCR FOLLOWED_BY_EQUAL_SIGNS_QUOTES_REQUIRED_REGEX s = some res) :
    groupStr s res.2.2 6 = groupStr s res.2.2 4 ∧
    ∃ q, groupStr s res.2.2 4 = some (String.mk [q]) ∧ evalClass QUOTE_CLASS q = true := by
  have hsem2 : Sem s true (.seq (DENYLIST_REGEX 1) (.seq (opt (.group 2 CLOSING_RE))
      (.seq WS (.seq (.group 3 OPSIGNS) (.seq WS (.seq (.group 4 (.cls QUOTE_CLASS))
      (.seq (.group 5 SECRET) (.group 6 (.backref 4))))))))) res.1 res.2.1 [] res.2.2 :=
    searchCR_sem h
  cases hsem2 with
  | seq h1 hr1 =>
    cases hr1 with
    | seq h2 hr2 =>
      cases hr2 with
      | seq h3 hr3 =>
        cases hr3 with
        | seq h4 hr4 =>
          cases hr4 with
          | seq h5 hr5 =>
            obtain ⟨q, p4, p6, hgq, hq, hgp6, hl4, hl6⟩ := sem_quote_suffix hr5
            constructor
            · unfold groupStr
              rw [hl4, hl6]
              simp only [Option.map_some']
              rw [extract_single hgq, extract_single hgp6]
            · refine ⟨q, ?_, hq⟩
              unfold groupStr
              rw [hl4]
              simp only [Option.map_some']
              rw [extract_single hgq]

theorem sem_lookup_preserved {s : List Char} {ic : Bool} {g : Nat} {r : RE}
    {i j : Nat} {gs gs2 : Groups} (h : Sem s ic r i j gs gs2) :
    bindsGroupB g r = false → lookupG gs2 g = lookupG gs g := by
  induction h with
  | eps => intro _; rfl
  | cls _ _ => intro _; rfl
  | seq h1 h2 ih1 ih2 =>
    intro hng
    rw [bindsGroupB, Bool.or_eq_false_iff] at hng
    rw [ih2 hng.2, ih1 hng.1]
  | altL h1 ih =>
    intro hng
    rw [bindsGroupB, Bool.or_eq_false_iff] at hng
    exact ih hng.1
  | altR h1 ih =>
    intro hng
    rw [bindsGroupB, Bool.or_eq_false_iff] at hng
    exact ih hng.2
  | star _ _ => intro _; rfl
  | lazy _ _ _ => intro _; rfl
  | group h1 ih =>
    rename_i n r0 i0 j0 gs0 g1
    intro hng
    rw [bindsGroupB, Bool.or_eq_false_iff] at hng
    have hne : n ≠ g := by
      intro he
      rw [he] at hng
      simp at hng
    rw [lookupG_cons_ne hne]
    exact ih hng.2
  | backref _ _ => intro _; rfl
  | look h1 ih =>
    intro hng
    rw [bindsGroupB] at hng
    exact ih hng
  | word _ => intro _; rfl

theorem quote_class_nonletter {q : Char} (hq : evalClass QUOTE_CLASS q = true) :
    isUp q = false ∧ isLow q = false := by
  rcases quote_class_cases hq with h1 | h1 | h1 <;> subst h1 <;> exact ⟨by decide, by decide⟩

theorem charEqCI_nonletter_eq {ic : Bool} {d q : Char}
    (hqn : isUp q = false ∧ isLow q = false) (h : charEqCI ic d q = true) : d = q := by
  unfold charEqCI at h
  rw [Bool.or_eq_true] at h
  rcases h with h | h
  · exact of_decide_eq_true h
  · rw [Bool.and_eq_true] at h
    have hld : lowerChar d = lowerChar q := of_decide_eq_true h.2
    rw [lowerChar_id_of_not_up hqn.1] at hld
    rcases hu : isUp d with _ | _
    · rw [lowerChar_id_of_not_up hu] at hld
      exact hld
    · have hl2 := isLow_lowerChar_of_up hu
      rw [hld, hqn.2] at hl2
      exact Bool.noConfusion hl2

theorem decide_eq_lowerChar_nonletter {c x : Char} (hxu : isUp x = false)
    (hxl : isLow x = false) : decide (lowerChar c = x) = decide (c = x) := by
  rcases h : isUp c with _ | _
  · rw [lowerChar_id_of_not_up h]
  · have h1 : lowerChar c ≠ x := by
      intro he
      have h2 := isLow_lowerChar_of_up h
      rw [he, hxl] at h2
      exact Bool.noConfusion h2
    have h2 : c ≠ x := by
      intro he
      rw [he, hxu] at h
      exact Bool.noConfusion h
    rw [decide_eq_false h1, decide_eq_false h2]

theorem decide_eq_upperChar_nonletter {c x : Char} (hxu : isUp x = false)
    (hxl : isLow x = false) : decide (upperChar c = x) = decide (c = x) := by
  rcases h : isLow c with _ | _
  · rw [upperChar_id_of_not_low h]
  · have h1 : upperChar c ≠ x := by
      intro he
      have h2 := isUp_upperChar_of_low h
      rw [he, hxu] at h2
      exact Bool.noConfusion h2
    have h2 : c ≠ x := by
      intro he
      rw [he, hxl] at h
      exact Bool.noConfusion h
    rw [decide_eq_false h1, decide_eq_false h2]

theorem charMatches_eqc_dq (ic : Bool) (c : Char) :
    charMatches ic (.eqc '"') c = evalClass (.eqc '"') c := by
  refine charMatches_caseClosed ?_ ?_ ic c
  · intro x
    show decide (lowerChar x = '"') = decide (x = '"')
    exact decide_eq_lowerChar_nonletter (by decide) (by decide)
  · intro x
    show decide (upperChar x = '"') = decide (x = '"')
    exact decide_eq_upperChar_nonletter (by decide) (by decide)

theorem eqc_dq_nonletter {q : Char} (hq : evalClass (.eqc '"') q = true) :
    isUp q = false ∧ isLow q = false := by
  have he : q = '"' := of_decide_eq_true hq
  subst he
  exact ⟨by decide, by decide⟩

theorem balanced_of_lookups {s : List Char} {gs2 : Groups} {nq nb : Nat} {qcls : CharClass}
    {q : Char} {p1 p2 : Nat} (hgq : s.get? p1 = some q) (hq : evalClass qcls q = true)
    (hgp2 : s.get? p2 = some q) (hl1 : lookupG gs2 nq = some (p1, p1 + 1))
    (hl2 : lookupG gs2 nb = some (p2, p2 + 1)) :
    groupStr s gs2 nb = groupStr s gs2 nq ∧
    ∃ q2, groupStr s gs2 nq = some (String.mk [q2]) ∧ evalClass qcls q2 = true := by
  constructor
  · unfold groupStr
    rw [hl1, hl2]
    simp only [Option.map_some']
    rw [extract_single hgq, extract_single hgp2]
  · refine ⟨q, ?_, hq⟩
    unfold groupStr
    rw [hl1]
    simp only [Option.map_some']
    rw [extract_single hgq]

theorem sem_quote_triple {s : List Char} {ic : Bool} {nq ns nb : Nat} {qcls : CharClass}
    {i j : Nat} {gmid gs2 : Groups}
    (hsn : ns ≠ nq) (hbn : nb ≠ nq)
    (hcm : ∀ c, charMatches ic qcls c = evalClass qcls c)
    (hnl : ∀ q, evalClass qcls q = true → isUp q = false ∧ isLow q = false)
    (h : Sem s ic (.seq (.group nq (.cls qcls))
      (.seq (.group ns SECRET) (.group nb (.backref nq)))) i j gmid gs2) :
    ∃ q p1 p2, s.get? p1 = some q ∧ evalClass qcls q = true ∧
      s.get? p2 = some q ∧
      lookupG gs2 nq = some (p1, p1 + 1) ∧ lookupG gs2 nb = some (p2, p2 + 1) := by
  cases h with
  | seq h4 h56 =>
    cases h56 with
    | seq h5 h6 =>
      obtain ⟨q, hgq, hcq, hj4, hg4⟩ := sem_group_cls h4
      subst hj4
      subst hg4
      rw [hcm q] at hcq
      have hg5 := sem_group_secret h5
      subst hg5
      obtain ⟨a, b, hlook, hrm, hj6, hg6⟩ := sem_group_backref h6
      subst hj6
      subst hg6
      rw [lookupG_cons_ne hsn, lookupG_cons_eq] at hlook
      have h2 := (Option.some.injEq _ _).mp hlook
      have ha : i = a := congrArg Prod.fst h2
      have hb : i + 1 = b := congrArg Prod.snd h2
      subst ha
      subst hb
      have hlen : i + 1 - i = 1 := by omega
      rw [hlen] at hrm
      obtain ⟨c, d, hgc, hgd, hci⟩ := refMatch_one hrm
      have hdq : d = q := by
        rw [hgq] at hgd
        exact ((Option.some.injEq _ _).mp hgd).symm
      rw [hdq] at hci
      have hcq2 : c = q := charEqCI_nonletter_eq (hnl q hcq) hci
      rw [hcq2] at hgc
      refine ⟨q, i, _, hgq, hcq, hgc, ?_, ?_⟩
      · rw [lookupG_cons_ne hbn, lookupG_cons_ne hsn, lookupG_cons_eq]
      · rw [hlen, lookupG_cons_eq]

theorem sem_quote_triple_rest {s : List Char} {ic : Bool} {nq ns nb : Nat}
    {qcls : CharClass} {rest : RE} {i j : Nat} {gmid gs2 : Groups}
    (hsn : ns ≠ nq) (hbn : nb ≠ nq)
    (hrq : bindsGroupB nq rest = false) (hrb : bindsGroupB nb rest = false)
    (hcm : ∀ c, charMatches ic qcls c = evalClass qcls c)
    (hnl : ∀ q, evalClass qcls q = true → isUp q = false ∧ isLow q = false)
    (h : Sem s ic (.seq (.group nq (.cls qcls)) (.seq (.group ns SECRET)
      (.seq (.group nb (.backref nq)) rest))) i j gmid gs2) :
    ∃ q p1 p2, s.get? p1 = some q ∧ evalClass qcls q = true ∧
      s.get? p2 = some q ∧
      lookupG gs2 nq = some (p1, p1 + 1) ∧ lookupG gs2 nb = some (p2, p2 + 1) := by
  cases h with
  | seq h4 h56 =>
    cases h56 with
    | seq h5 h67 =>
      cases h67 with
      | seq h6 hrest =>
        obtain ⟨q, hgq, hcq, hj4, hg4⟩ := sem_group_cls h4
        subst hj4
        subst hg4
        rw [hcm q] at hcq
        have hg5 := sem_group_secret h5
        subst hg5
        obtain ⟨a, b, hlook, hrm, hj6, hg6⟩ := sem_group_backref h6
        subst hj6
        subst hg6
        rw [lookupG_cons_ne hsn, lookupG_cons_eq] at hlook
        have h2 := (Option.some.injEq _ _).mp hlook
        have ha : i = a := congrArg Prod.fst h2
        have hb : i + 1 = b := congrArg Prod.snd h2
        subst ha
        subst hb
        have hlen : i + 1 - i = 1 := by omega
        rw [hlen] at hrm
        obtain ⟨c, d, hgc, hgd, hci⟩ := refMatch_one hrm
        have hdq : d = q := by
          rw [hgq] at hgd
          exact ((Option.some.injEq _ _).mp hgd).symm
        rw [hdq] at hci
        have hcq2 : c = q := charEqCI_nonletter_eq (hnl q hcq) hci
        rw [hcq2] at hgc
        have hpq := sem_lookup_preserved hrest hrq
        have hpb := sem_lookup_preserved hrest hrb
        refine ⟨q, i, _, hgq, hcq, hgc, ?_, ?_⟩
        · rw [hpq, lookupG_cons_ne hbn, lookupG_cons_ne hsn, lookupG_cons_eq]
        · rw [hpb, hlen, lookupG_cons_eq]

theorem colon_qr_balanced :
    balancedQuoteGroups QUOTE_CLASS FOLLOWED_BY_COLON_QUOTES_REQUIRED_REGEX 4 6 :=
  fun _ _ h => colon_qr_backref_balance h

theorem eq_qr_balanced :
    balancedQuoteGroups QUOTE_CLASS FOLLOWED_BY_EQUAL_SIGNS_QUOTES_REQUIRED_REGEX 4 6 :=
  fun _ _ h => eq_qr_backref_balance h

theorem brackets_qr_balanced :
    balancedQuoteGroups (.eqc '"')
      FOLLOWED_BY_EQUAL_SIGNS_OPTIONAL_BRACKETS_OPTIONAL_AT_SIGN_QUOTES_REQUIRED_REGEX 5 7 := by
  intro s res h
  have hsem2 : Sem s true (.seq (DENYLIST_REGEX 1) (.seq (opt (.group 2 (.group 3 (.seq (.cls (.eqc '[')) (.seq (.starCls .digit) (.cls (.eqc ']'))))))) (.seq WS (.seq (rep12 (.inSet ['!', '='])) (.seq WS (.seq (opt (.group 4 (.cls (.eqc '@')))) (.seq (.group 5 (.cls (.eqc '\"'))) (.seq (.group 6 SECRET) (.group 7 (.backref 5))))))))))
      res.1 res.2.1 [] res.2.2 := searchCR_sem h
  cases hsem2 with
  | seq h1 hr1 =>
    cases hr1 with
    | seq h2 hr2 =>
      cases hr2 with
      | seq h3 hr3 =>
        cases hr3 with
        | seq h4 hr4 =>
          cases hr4 with
          | seq h5 hr5 =>
            cases hr5 with
            | seq h6 hr6 =>
              obtain ⟨q, p1, p2, hgq, hq, hgp2, hl1, hl2⟩ :=
                sem_quote_triple (by decide) (by decide) (charMatches_eqc_dq true)
                  (fun q hq => eqc_dq_nonletter hq) hr6
              exact balanced_of_lookups hgq hq hgp2 hl1 hl2

theorem assign_qr_balanced :
    balancedQuoteGroups (.eqc '"') FOLLOWED_BY_OPTIONAL_ASSIGN_QUOTES_REQUIRED_REGEX 3 5 := by
  intro s res h
  have hsem2 : Sem s false (.seq (DENYLIST_REGEX 1) (.seq (opt (.group 2 (.seq (.cls .notNL) (litS "assign")))) (.seq (.cls (.eqc '(')) (.seq (.group 3 (.cls (.eqc '\"'))) (.seq (.group 4 SECRET) (.group 5 (.backref 3)))))))
      res.1 res.2.1 [] res.2.2 := searchCR_sem h
  cases hsem2 with
  | seq h1 hr1 =>
    cases hr1 with
    | seq h2 hr2 =>
      cases hr2 with
      | seq h3 hr3 =>
        obtain ⟨q, p1, p2, hgq, hq, hgp2, hl1, hl2⟩ :=
          sem_quote_triple (by decide) (by decide) (charMatches_eqc_dq false)
            (fun q hq => eqc_dq_nonletter hq) hr3
        exact balanced_of_lookups hgq hq hgp2 hl1 hl2

theorem preceded_qr_balanced :
    balancedQuoteGroups QUOTE_CLASS
      PRECEDED_BY_EQUAL_COMPARISON_SIGNS_QUOTES_REQUIRED_REGEX 1 3 := by
  intro s res h
  have hsem2 : Sem s false (.seq (.group 1 (.cls QUOTE_CLASS)) (.seq (.group 2 SECRET) (.seq (.group 3 (.backref 1)) (.seq WS (.seq (rep23 (.inSet ['!', '='])) (.seq WS (DENYLIST_REGEX_PREFIXED 4)))))))
      res.1 res.2.1 [] res.2.2 := searchCR_sem h
  obtain ⟨q, p1, p2, hgq, hq, hgp2, hl1, hl2⟩ :=
    sem_quote_triple_rest (by decide) (by decide) (by decide) (by decide)
      (charMatches_quote false) (fun q hq => quote_class_nonletter hq) hsem2
  exact balanced_of_lookups hgq hq hgp2 hl1 hl2

theorem semicolon_qr_balanced :
    balancedQuoteGroups QUOTE_CLASS FOLLOWED_BY_QUOTES_AND_SEMICOLON_REGEX 2 4 := by
  intro s res h
  have hsem2 : Sem s true (.seq (DENYLIST_REGEX 1) (.seq (.lazyRep (.notInSet spaceChars) 50) (.seq WS (.seq (.group 2 (.cls QUOTE_CLASS)) (.seq (.group 3 SECRET) (.seq (.group 4 (.backref 2)) (.cls (.eqc ';'))))))))
      res.1 res.2.1 [] res.2.2 := searchCR_sem h
  cases hsem2 with
  | seq h1 hr1 =>
    cases hr1 with
    | seq h2 hr2 =>
      cases hr2 with
      | seq h3 hr3 =>
        obtain ⟨q, p1, p2, hgq, hq, hgp2, hl1, hl2⟩ :=
          sem_quote_triple_rest (by decide) (by decide) (by decide) (by decide)
            (charMatches_quote true) (fun q hq => quote_class_nonletter hq) hr3
        exact balanced_of_lookups hgq hq hgp2 hl1 hl2

theorem arrow_qr_balanced :
    balancedQuoteGroups QUOTE_CLASS
      FOLLOWED_BY_ARROW_FUNCTION_SIGN_QUOTES_REQUIRED_REGEX 3 5 := by
  intro s res h
  have hsem2 : Sem s true (.seq (DENYLIST_REGEX 1) (.seq (opt (.group 2 CLOSING_RE)) (.seq WS (.seq (.cls (.eqc '=')) (.seq (optC '>') (.seq WS (.seq (.group 3 (.cls QUOTE_CLASS)) (.seq (.group 4 SECRET) (.group 5 (.backref 3))))))))))
      res.1 res.2.1 [] res.2.2 := searchCR_sem h
  cases hsem2 with
  | seq h1 hr1 =>
    cases hr1 with
    | seq h2 hr2 =>
      cases hr2 with
      | seq h3 hr3 =>
        cases hr3 with
        | seq h4 hr4 =>
          cases hr4 with
          | seq h5 hr5 =>
            cases hr5 with
            | seq h6 hr6 =>
              obtain ⟨q, p1, p2, hgq, hq, hgp2, hl1, hl2⟩ :=
                sem_quote_triple (by decide) (by decide) (charMatches_quote true)
                  (fun q hq => quote_class_nonletter hq) hr6
              exact balanced_of_lookups hgq hq hgp2 hl1 hl2

/-- Counterexample to C5 as stated: `DATA_PUT_PASSWORD_REGEX` is a member
of the quotes-required rule set whose two value quotes are independent
character classes with no back-reference, so on
`data.put("password", 'bar")` — where the value opens with a single quote
(position 21) and closes with a double quote (position 25) — the family
matches and `analyze_string` yields the candidate `bar` despite the
mismatched quote pair. -/
theorem quote_required_mismatch_cex :
    analyzeString modelCompile ⟨none⟩ (some QUOTES_REQUIRED_DENYLIST_REGEX_TO_GROUP)
      "data.put(\"password\", 'bar\")".data = [some "bar"] ∧
    (searchCR DATA_PUT_PASSWORD_REGEX "data.put(\"password\", 'bar\")".data).map
      (fun r => groupStr "data.put(\"password\", 'bar\")".data r.2.2 2) =
      some (some "bar") ∧
    "data.put(\"password\", 'bar\")".data.get? 21 = some '\'' ∧
    "data.put(\"password\", 'bar\")".data.get? 25 = some '"' :=
  ⟨by decide, by decide, by decide, by decide⟩

/-- C5 amended: in each of the seven quote-required families that capture
the opening value quote and back-reference it — the colon, equals,
bracket/at-sign, constructor/assign-call, right-to-left comparison,
semicolon and arrow families — every successful match back-references the
captured opening quote: the closing capture holds exactly that one quote
character, so a pair whose opening and closing quotes differ cannot match
(and the spec scenario `api_key: "value'` yields no candidate at all).
The `data.put` map-literal family is the one quote-required family
without a back-reference and is exempt (see the counterexample). -/
theorem backref_quote_required_balance :
    balancedQuoteGroups QUOTE_CLASS FOLLOWED_BY_COLON_QUOTES_REQUIRED_REGEX 4 6 ∧
    balancedQuoteGroups QUOTE_CLASS FOLLOWED_BY_EQUAL_SIGNS_QUOTES_REQUIRED_REGEX 4 6 ∧
    balancedQuoteGroups (.eqc '"')
      FOLLOWED_BY_EQUAL_SIGNS_OPTIONAL_BRACKETS_OPTIONAL_AT_SIGN_QUOTES_REQUIRED_REGEX 5 7 ∧
    balancedQuoteGroups (.eqc '"') FOLLOWED_BY_OPTIONAL_ASSIGN_QUOTES_REQUIRED_REGEX 3 5 ∧
    balancedQuoteGroups QUOTE_CLASS
      PRECEDED_BY_EQUAL_COMPARISON_SIGNS_QUOTES_REQUIRED_REGEX 1 3 ∧
    balancedQuoteGroups QUOTE_CLASS FOLLOWED_BY_QUOTES_AND_SEMICOLON_REGEX 2 4 ∧
    balancedQuoteGroups QUOTE_CLASS FOLLOWED_BY_ARROW_FUNCTION_SIGN_QUOTES_REQUIRED_REGEX 3 5 ∧
    analyzeString modelCompile ⟨none⟩ (some QUOTES_REQUIRED_DENYLIST_REGEX_TO_GROUP)
      "api_key: \"value'".data = [] :=
  ⟨colon_qr_balanced, eq_qr_balanced, brackets_qr_balanced, assign_qr_balanced,
   preceded_qr_balanced, semicolon_qr_balanced, arrow_qr_balanced, by decide⟩

/-- Witness for C5 amended on the balanced line `api_key: "value"`. -/
theorem backref_quote_required_balance_witness :
    searchCR FOLLOWED_BY_COLON_QUOTES_REQUIRED_REGEX "api_key: \"value\"".data =
      some (0, 16, [(6, 15, 16), (5, 10, 15), (4, 9, 10), (3, 8, 9), (2, 7, 7), (1, 0, 7)]) ∧
    (groupStr "api_key: \"value\"".data
        [(6, 15, 16), (5, 10, 15), (4, 9, 10), (3, 8, 9), (2, 7, 7), (1, 0, 7)] 6 =
      groupStr "api_key: \"value\"".data
        [(6, 15, 16), (5, 10, 15), (4, 9, 10), (3, 8, 9), (2, 7, 7), (1, 0, 7)] 4) :=
  ⟨by decide,
   (backref_quote_required_balance.1 "api_key: \"value\"".data
     (0, 16, [(6, 15, 16), (5, 10, 15), (4, 9, 10), (3, 8, 9), (2, 7, 7), (1, 0, 7)])
     (by decide)).1⟩

end DetectSecrets
